import Mathlib

/-!
Verification development for the MavLogAnalyzer core (`src/mavsystem.cpp`).

The C++ source is shallowly embedded in Lean.  C `double`/`float` arithmetic is
idealised as exact rational arithmetic (`ℚ`); all claims treated here depend on
comparisons and control flow, not on floating-point rounding.  The `double`
values `INFINITY` / `-INFINITY` used to initialise the time bounds are modelled
with `WithTop ℚ` / `WithBot ℚ`.

Classes that `mavsystem.cpp` uses but whose code is not part of the sources
(`Data`, `DataTimeseries`, `DataEvent`, `DataParam`, `DataGroup` internals, and
the `MAVSYSTEM_*` accessor macros) are modelled from the specification; each
such definition carries a doc comment starting with `Modelled from the spec:`.
-/

/-! ## Relative-time tracking (`MavSystem::update_rel_time`) -/

/-- Time-tracking slice of `MavSystem`'s state: the fields `_time`,
`_time_min`, `_time_max`, `_time_valid` and `_have_time_update`.
`_time_min` starts at `INFINITY` (modelled `⊤`), `_time_max` at `-INFINITY`
(modelled `⊥`), per `MavSystem::_defaults`. -/
structure TimeState where
  time : ℚ
  time_min : WithTop ℚ
  time_max : WithBot ℚ
  time_valid : Bool
  have_time_update : Bool
deriving DecidableEq

/-- `_time_maxfwdjump_sec`, set to `100.` in `MavSystem::_defaults`. -/
def timeMaxFwdjumpSec : ℚ := 100

/-- `_time_maxbackjump_sec`, set to `5.` in `MavSystem::_defaults`. -/
def timeMaxBackjumpSec : ℚ := 5

/-- Fresh time state as initialised by `MavSystem::_defaults` (`_time` itself
is initialised to `0.` in the constructor). -/
def initTimeState : TimeState :=
  { time := 0, time_min := ⊤, time_max := ⊥, time_valid := false,
    have_time_update := false }

/-- `MavSystem::update_rel_time(nowtime_relative_usec, allowjumps)`:
the returned `Int` is the C return code (`-1` backward jump, `1` forward jump,
`0` accepted). -/
def update_rel_time (s : TimeState) (nowtime_relative_usec : ℕ)
    (allowjumps : Bool) : Int × TimeState :=
  let cand_time : ℚ := (nowtime_relative_usec : ℚ) / 1000000
  let diff : ℚ := if s.time_valid then cand_time - s.time else 0
  let s1 : TimeState := if s.time_valid then s else { s with time_valid := true }
  if diff < -timeMaxBackjumpSec ∧ allowjumps = false then
    (-1, s1)
  else if diff > timeMaxFwdjumpSec ∧ allowjumps = false then
    (1, s1)
  else
    (0, { s1 with
          time_min := if (cand_time : WithTop ℚ) < s1.time_min then (cand_time : WithTop ℚ) else s1.time_min,
          time_max := if (cand_time : WithBot ℚ) > s1.time_max then (cand_time : WithBot ℚ) else s1.time_max,
          time := cand_time,
          have_time_update := true })

/-! ## Data units and the flat path store

`MavSystem` owns a map `_data_from_path` from full slash-delimited path to a
polymorphic `Data` object, plus a group tree.  For the claims about tracking,
merging and postprocessing only the flat map is observable, so `Store` models
`_data_from_path` as an association list in iteration order.  (The group tree
is modelled separately below for the hierarchy claim.)  The `Data` class
family is not part of the sources; its state is modelled from the spec:
a unit has samples, a units-of-measure text (irrelevant to every claim and
omitted), a raw/derived classification, an epoch baseline in microseconds,
and — for `DataTimed` — a bad-timestamps flag. -/

/-- Modelled from the spec: the sample payload of the three `Data` variants
used by `mavsystem.cpp` — `DataTimeseries` ((time, value) pairs, time in
seconds), `DataEvent<string>` ((time, text) pairs), and `DataParam` over
`unsigned int` (`pN`) or `double` (`pQ`). -/
inductive DVal where
  | ts (samples : List (ℚ × ℚ))
  | evt (samples : List (ℚ × String))
  | pN (vals : List ℕ)
  | pQ (vals : List ℚ)
deriving DecidableEq

/-- The four representation kinds of `DVal`. -/
inductive DKind where
  | ts | evt | pN | pQ
deriving DecidableEq

def DVal.kind : DVal → DKind
  | .ts _ => .ts
  | .evt _ => .evt
  | .pN _ => .pN
  | .pQ _ => .pQ

/-- Modelled from the spec: the observable state of one `Data` unit. -/
structure DUnit where
  val : DVal
  derived : Bool := false
  epoch : Int := 0
  badts : Bool := false
deriving DecidableEq

/-- The flat path-to-unit map `_data_from_path`, in iteration order. -/
abbrev Store := List (String × DUnit)

def lookupUnit : Store → String → Option DUnit
  | [], _ => none
  | (q, u) :: rest, p => if q = p then some u else lookupUnit rest p

/-- Map update: replace the entry at the key, else append (the `std::map`
subscript operator). -/
def setUnit : Store → String → DUnit → Store
  | [], p, u => [(p, u)]
  | (q, v) :: rest, p, u => if q = p then (p, u) :: rest else (q, v) :: setUnit rest p u

/-- Map erase by key. -/
def removeUnit : Store → String → Store
  | [], _ => []
  | (q, v) :: rest, p => if q = p then rest else (q, v) :: removeUnit rest p

/-- An empty unit of the requested kind, as freshly constructed by the
`MAVSYSTEM_DATA_ITEM_*` macros. -/
def freshUnit : DKind → DUnit
  | .ts => { val := .ts [] }
  | .evt => { val := .evt [] }
  | .pN => { val := .pN [] }
  | .pQ => { val := .pQ [] }

/-- Modelled from the spec: the `MAVSYSTEM_DATA_ITEM_OR_RETURN` macro —
units are created lazily on first write to a path; an existing unit of the
requested representation is reused, anything else is replaced by a fresh
empty unit of the requested kind. -/
def getOrCreate (s : Store) (p : String) (k : DKind) : DUnit × Store :=
  match lookupUnit s p with
  | some u => if u.val.kind = k then (u, s) else (freshUnit k, setUnit s p (freshUnit k))
  | none => (freshUnit k, setUnit s p (freshUnit k))

/-- Modelled from the spec: the `MAVSYSTEM_REQUIRE_DATA` macro for a
timeseries — read-only lookup, no creation; yields the samples and the epoch
baseline. -/
def requireTS (s : Store) (p : String) : Option (List (ℚ × ℚ) × Int) :=
  match lookupUnit s p with
  | some u =>
    match u.val with
    | .ts l => some (l, u.epoch)
    | _ => none
  | none => none

/-- The timeseries samples stored at a path ([] when the path is absent or
holds another representation). -/
def tsSamples (s : Store) (p : String) : List (ℚ × ℚ) :=
  match lookupUnit s p with
  | some u => match u.val with | .ts l => l | _ => []
  | none => []

/-- The event samples stored at a path. -/
def evtSamples (s : Store) (p : String) : List (ℚ × String) :=
  match lookupUnit s p with
  | some u => match u.val with | .evt l => l | _ => []
  | none => []

/-- The unsigned parameter values stored at a path. -/
def pNVals (s : Store) (p : String) : List ℕ :=
  match lookupUnit s p with
  | some u => match u.val with | .pN l => l | _ => []
  | none => []

/-- The double parameter values stored at a path. -/
def pQVals (s : Store) (p : String) : List ℚ :=
  match lookupUnit s p with
  | some u => match u.val with | .pQ l => l | _ => []
  | none => []

/-- The timeseries samples of a unit (helper for append). -/
def DUnit.tsOf (u : DUnit) : List (ℚ × ℚ) :=
  match u.val with | .ts l => l | _ => []

/-- Modelled from the spec: `DataTimeseries::add_elem(value, time)` appends
the sample (the caller passes non-decreasing times during ingestion). -/
def DUnit.appendTS (u : DUnit) (t v : ℚ) : DUnit :=
  { u with val := .ts (u.tsOf ++ [(t, v)]) }

/-- Modelled from the spec: `DataTimeseries::get_data_at_time(t)` — linear
interpolation between the two bracketing samples, nearest-sample clamping at
the boundaries, no value when the series is empty.  `interpGo ta va l t`
scans with `(ta, va)` the last sample at or before `t`. -/
def interpGo (ta va : ℚ) : List (ℚ × ℚ) → ℚ → ℚ
  | [], _ => va
  | (tb, vb) :: rest, t =>
    if t ≤ tb then va + (vb - va) * (t - ta) / (tb - ta)
    else interpGo tb vb rest t

def interpAt (l : List (ℚ × ℚ)) (t : ℚ) : Option ℚ :=
  match l with
  | [] => none
  | (t0, v0) :: rest => if t ≤ t0 then some v0 else some (interpGo t0 v0 rest t)

/-- `interpAt` with the C calling convention: on failure the output variable
keeps its previous value `d`. -/
def interpD (l : List (ℚ × ℚ)) (t d : ℚ) : ℚ := (interpAt l t).getD d

/-! ## Tracking calls (`MavSystem::track_paths`, `MavSystem::track_sysperf`) -/

/-- `MavSystem::track_paths(lat, lon, alt_rel_m, alt_msl_m, heading_deg)`.
`time` is the member `_time`.  The five series are resolved/created first
(the macro declarations), then the samples are appended in source order; the
heading sample only under `heading_deg <= 360.f`. -/
def track_paths (s : Store) (time lat lon alt_rel_m alt_msl_m heading_deg : ℚ) : Store :=
  let pLat := getOrCreate s "airstate/lat" .ts
  let pLon := getOrCreate pLat.2 "airstate/lon" .ts
  let pGnd := getOrCreate pLon.2 "airstate/alt GND" .ts
  let pMsl := getOrCreate pGnd.2 "airstate/alt MSL" .ts
  let pHdg := getOrCreate pMsl.2 "airstate/heading" .ts
  let s6 := setUnit pHdg.2 "airstate/lat" (pLat.1.appendTS time lat)
  let s7 := setUnit s6 "airstate/lon" (pLon.1.appendTS time lon)
  let s8 := setUnit s7 "airstate/alt GND" (pGnd.1.appendTS time alt_rel_m)
  let s9 := setUnit s8 "airstate/alt MSL" (pMsl.1.appendTS time alt_msl_m)
  if heading_deg ≤ 360 then
    setUnit s9 "airstate/heading" (pHdg.1.appendTS time heading_deg)
  else s9

/-- `MavSystem::track_sysperf(load, bat_V, bat_A)`: the load sample is always
appended; current only when `bat_A > 0.`, voltage only when `bat_V > 0.`. -/
def track_sysperf (s : Store) (time load bat_V bat_A : ℚ) : Store :=
  let pLoad := getOrCreate s "computer/autopilot_load" .ts
  let pVolt := getOrCreate pLoad.2 "power/battery_voltage" .ts
  let pAmps := getOrCreate pVolt.2 "power/battery_current" .ts
  let s4 := setUnit pAmps.2 "computer/autopilot_load" (pLoad.1.appendTS time load)
  let s5 := if bat_A > 0 then setUnit s4 "power/battery_current" (pAmps.1.appendTS time bat_A) else s4
  if bat_V > 0 then setUnit s5 "power/battery_voltage" (pVolt.1.appendTS time bat_V) else s5

/-! ## Unit-level merge and `MavSystem::_add_data` -/

/-- Modelled from the spec: `Data::is_present()` — a unit is present when it
holds at least one sample/value (an empty unit is a placeholder). -/
def DUnit.is_present (u : DUnit) : Bool :=
  match u.val with
  | .ts l => !l.isEmpty
  | .evt l => !l.isEmpty
  | .pN l => !l.isEmpty
  | .pQ l => !l.isEmpty

/-- Modelled from the spec: union of two time-sorted sample lists; on an
exact-time duplicate the incoming (second) value wins. -/
def unionByTime {α : Type} : List (ℚ × α) → List (ℚ × α) → List (ℚ × α)
  | [], b => b
  | a, [] => a
  | (ta, va) :: as', (tb, vb) :: bs' =>
    if ta < tb then (ta, va) :: unionByTime as' ((tb, vb) :: bs')
    else if tb < ta then (tb, vb) :: unionByTime ((ta, va) :: as') bs'
    else (tb, vb) :: unionByTime as' bs'
termination_by a b => a.length + b.length

/-- Modelled from the spec: `Data::merge_in` — a unit merges another unit of
the same representation by union of samples over time (incoming value wins
on exact-time duplicates) and fails on incompatible representations.  The
spec leaves the merge of `Parameter` values open; it is modelled as the
incoming values replacing the present ones. -/
def unitMergeVal : DVal → DVal → Option DVal
  | .ts a, .ts b => some (.ts (unionByTime a b))
  | .evt a, .evt b => some (.evt (unionByTime a b))
  | .pN _, .pN b => some (.pN b)
  | .pQ _, .pQ b => some (.pQ b)
  | _, _ => none

/-- `MavSystem::_add_data(src)`: merge one incoming unit (at path `p`) into
the flat map.  Present and non-empty at the same path: delegate to the unit
merge (false on representation mismatch); present but empty: drop the
placeholder (`_del_data`) and register a copy of the incoming unit; absent:
register a copy. -/
def add_data (s : Store) (p : String) (u : DUnit) : Store × Bool :=
  match lookupUnit s p with
  | some mine =>
    if mine.is_present then
      match unitMergeVal mine.val u.val with
      | some merged => (setUnit s p { mine with val := merged }, true)
      | none => (s, false)
    else
      (setUnit (removeUnit s p) p u, true)
  | none => (setUnit s p u, true)

/-! ## Absolute time (`MavSystem::determine_absolute_time`) -/

/-- The C library `round` (half away from zero), applied to an exact ℚ. -/
def cround (x : ℚ) : ℤ :=
  if 0 ≤ x then ⌊x + 1/2⌋ else -⌊-x + 1/2⌋

/-- System-level slice for time offsets: the fields `_time_offset_raw`
(reference pairs, relative µs and absolute epoch µs), `_time_offset_guess_usec`,
`_time_offset_usec`, and the owned data units. -/
structure MavSys where
  store : Store
  time_offset_raw : List (ℕ × ℕ) := []
  time_offset_guess_usec : Int := 0
  time_offset_usec : Int := 0
deriving DecidableEq

/-- `MavSystem::determine_absolute_time()`: with reference pairs, the offset
is `round` of the arithmetic mean of `(absolute - relative)`; otherwise the
previously recorded guess.  The offset is then stored as `epoch_datastart`
of every data unit. -/
def determine_absolute_time (m : MavSys) : MavSys :=
  let off : Int :=
    if m.time_offset_raw.isEmpty then m.time_offset_guess_usec
    else cround (((m.time_offset_raw.map (fun pr => (pr.2 : ℚ) - (pr.1 : ℚ))).sum)
                  / (m.time_offset_raw.length : ℚ))
  { m with time_offset_usec := off,
           store := m.store.map (fun e => (e.1, { e.2 with epoch := off })) }

/-! ## Postprocessing pipeline: shared helpers -/

/-- Modelled from the spec: `DataTimed::make_periodic()` — rewrites the
timestamps of a sample list to an evenly spaced sequence spanning the
original first/last time, preserving order and count. -/
def make_periodic {α : Type} (l : List (ℚ × α)) : List (ℚ × α) :=
  match l with
  | [] => []
  | (t0, _) :: _ =>
    let tN : ℚ := ((l.getLast?).map Prod.fst).getD t0
    let n : ℚ := (l.length : ℚ) - 1
    l.enum.map (fun kv => (t0 + (kv.1 : ℚ) * (tN - t0) / n, kv.2.2))

/-- `make_periodic` lifted to a `DVal` (only the timed variants have
timestamps); the repaired unit no longer has bad timestamps. -/
def periodicVal : DVal → DVal
  | .ts l => .ts (make_periodic l)
  | .evt l => .evt (make_periodic l)
  | v => v

/-- Whether a `DVal` is a `DataTimed` (timeseries or event series). -/
def DVal.isTimed : DVal → Bool
  | .ts _ => true
  | .evt _ => true
  | _ => false

/-- Modelled from the spec: `DataTimeseries::moving_average(out, w)` — every
output sample is the mean of the input samples whose timestamps fall within
`w/2` of its timestamp. -/
def movingAverage (l : List (ℚ × ℚ)) (w : ℚ) : List (ℚ × ℚ) :=
  l.map (fun sm =>
    (sm.1,
      let near := l.filter (fun u => |u.1 - sm.1| ≤ w / 2)
      ((near.map Prod.snd).sum) / (near.length : ℚ)))

/-- Modelled from the spec: `DataTimeseries::get_max()` over the sample
values (`0` for an empty series; never used on one by the passes below). -/
def tsValMax (l : List (ℚ × ℚ)) : ℚ :=
  match l with
  | [] => 0
  | (_, v) :: rest => rest.foldl (fun a s => max a s.2) v

/-- Modelled from the spec: `DataTimeseries::get_min()` over the values. -/
def tsValMin (l : List (ℚ × ℚ)) : ℚ :=
  match l with
  | [] => 0
  | (_, v) :: rest => rest.foldl (fun a s => min a s.2) v

/-- Splits a character list at non-word characters (the regex word/non-word
distinction), accumulating the current word reversed. -/
def splitWords (acc : List Char) : List Char → List (List Char)
  | [] => [acc.reverse]
  | c :: rest =>
    if c.isAlphanum || c = '_' then splitWords (c :: acc) rest
    else acc.reverse :: splitWords [] rest

/-- Word-boundary regex match, e.g. `"\bPN\b"`: the word occurs in the path
delimited by non-word characters. -/
def wordIn (w p : String) : Bool :=
  (splitWords [] p.data).contains w.data

/-- Whether the first list is an initial run of the second. -/
def initialRun : List Char → List Char → Bool
  | [], _ => true
  | _ :: _, [] => false
  | a :: as', b :: bs' => a == b && initialRun as' bs'

def containsRun (sub : List Char) : List Char → Bool
  | [] => sub.isEmpty
  | c :: rest => initialRun sub (c :: rest) || containsRun sub rest

/-- Plain substring regex match, e.g. `"NKF1/VE"`. -/
def substrIn (sub p : String) : Bool :=
  containsRun sub.data p.data

/-- `MavSystem::get_data<DataTimeseries>(pattern, true)`: the first unit in
the flat map whose path matches the pattern and which is a timeseries.
(The C++ map iterates in sorted path order; the association list models that
deterministic order.) -/
def findPatTS : Store → (String → Bool) → Option DUnit
  | [], _ => none
  | (p, u) :: rest, m =>
    if m p ∧ u.val.kind = .ts then some u else findPatTS rest m

/-- Rational stand-in for `M_PI`.  Control flow and sample multiplicities in
the passes below never depend on its value; no theorem in this file rests on
the numerical output of the transcendental stand-ins. -/
def piQ : ℚ := 355 / 113

/-- Rational stand-in for the C library `cos` (truncated Taylor series). -/
def cosQ (x : ℚ) : ℚ := 1 - x ^ 2 / 2 + x ^ 4 / 24 - x ^ 6 / 720

/-- Rational stand-in for the C library `sin` (truncated Taylor series). -/
def sinQ (x : ℚ) : ℚ := x - x ^ 3 / 6 + x ^ 5 / 120

/-- Rational stand-in for the C library `acos`. -/
def acosQ (x : ℚ) : ℚ := piQ / 2 - (x + x ^ 3 / 6)

/-- Rational stand-in for the C library `atan2`. -/
def atan2Q (y x : ℚ) : ℚ :=
  let at' : ℚ → ℚ := fun z => z - z ^ 3 / 3 + z ^ 5 / 5
  if 0 < x then at' (y / x)
  else if x < 0 then (if 0 ≤ y then at' (y / x) + piQ else at' (y / x) - piQ)
  else if 0 < y then piQ / 2 else if y < 0 then -(piQ / 2) else 0

/-- `angle360` from `mavsystem.cpp`: normalises an angle into `[0, 360)` (the
source repeatedly adds/subtracts `360`; on exact rationals that equals
reduction modulo 360). -/
def angle360 (x : ℚ) : ℚ := x - 360 * ⌊x / 360⌋

/-- `RAD2DEG` macro. -/
def rad2deg (x : ℚ) : ℚ := x * (180 / piQ)

/-- `DEG2RAD` macro. -/
def deg2rad (x : ℚ) : ℚ := x * piQ / 180

/-! ## Pass 1: timing repair (`MavSystem::_postprocess_bad_timing`) -/

/-- `MavSystem::_postprocess_bad_timing()`: iterate a snapshot of the flat
map; every timed unit flagged with bad timestamps is first cloned under the
path with `"_orig"` appended (the clone keeps the bad timestamps), then its
own timestamps are made periodic.  The bad-timestamps flag itself is
modelled from the spec (`DataTimed::has_bad_timestamps()` is a property of
the timestamps and no longer holds after `make_periodic`). -/
def postprocess_bad_timing (s : Store) : Store :=
  s.foldl (fun acc e =>
    if e.2.val.isTimed && e.2.badts then
      let acc1 := setUnit acc (e.1 ++ "_orig") e.2
      setUnit acc1 e.1 { e.2 with val := periodicVal e.2.val, badts := false }
    else acc) s

/-! ## Pass 2: flight book (`MavSystem::_postprocess_flightbook`) -/

/-- The loop state of the flight-book scan: the locals `flying`, `t_takeoff`,
`t_first_takeoff`, `t_last_landing`, `nflights`, `flighttime` and the event
series being appended to. -/
structure FBState where
  flying : Bool
  t_takeoff : ℚ
  t_first_takeoff : ℚ
  t_last_landing : ℚ
  nflights : ℕ
  flighttime : ℚ
  evts : List (ℚ × String)
deriving DecidableEq

def fbInit : FBState :=
  { flying := false, t_takeoff := 0, t_first_takeoff := 0, t_last_landing := 0,
    nflights := 0, flighttime := 0, evts := [] }

/-- One altitude sample of the flight-book loop: interpolate throttle at the
altitude timestamp, classify `seems_flying = alt > 1. && throttle > 20.f`,
record a takeoff on a false-to-true edge and a landing on a true-to-false
edge. -/
def fbStep (thr : List (ℚ × ℚ)) (st : FBState) (sm : ℚ × ℚ) : FBState :=
  match interpAt thr sm.1 with
  | none => st
  | some throttle =>
    let seems_flying : Bool := decide (sm.2 > 1) && decide (throttle > 20)
    if seems_flying && !st.flying then
      { st with
          flying := true,
          evts := st.evts ++ [(sm.1, "takeoff")],
          nflights := st.nflights + 1,
          t_first_takeoff := if st.nflights + 1 = 1 then sm.1 else st.t_first_takeoff,
          t_takeoff := sm.1 }
    else if !seems_flying && st.flying then
      { st with
          flying := false,
          evts := st.evts ++ [(sm.1, "landing")],
          t_last_landing := sm.1,
          flighttime := st.flighttime + (sm.1 - st.t_takeoff) }
    else st

/-- Body of the flight-book pass once altitude and throttle are available
with equal epoch baselines `e`: resolve/create the five derived outputs,
clear them, and recompute them from the scan of the altitude samples. -/
def flightbookCore (s : Store) (alt thr : List (ℚ × ℚ)) (e : Int) : Store :=
  let pE := getOrCreate s "flightbook/takeoff_landing" .evt
  let pN' := getOrCreate pE.2 "flightbook/number flights" .pN
  let pT := getOrCreate pN'.2 "flightbook/total flight time" .pQ
  let pF := getOrCreate pT.2 "flightbook/first takeoff" .pQ
  let pL := getOrCreate pF.2 "flightbook/last landing" .pQ
  let st := alt.foldl (fbStep thr) fbInit
  let s6 := setUnit pL.2 "flightbook/takeoff_landing"
    { pE.1 with val := .evt st.evts, derived := true, epoch := e }
  let s7 := setUnit s6 "flightbook/number flights"
    { pN'.1 with val := .pN [st.nflights], derived := true, epoch := e }
  let s8 := setUnit s7 "flightbook/total flight time"
    { pT.1 with val := .pQ [st.flighttime], derived := true, epoch := e }
  let s9 := setUnit s8 "flightbook/first takeoff"
    { pF.1 with val := .pQ [st.t_first_takeoff], derived := true, epoch := e }
  setUnit s9 "flightbook/last landing"
    { pL.1 with val := .pQ [st.t_last_landing], derived := true, epoch := e }

/-- `MavSystem::_postprocess_flightbook()`: requires the altitude and
throttle series; aborts (leaving the store unchanged) when either is missing
or their epoch baselines differ. -/
def postprocess_flightbook (s : Store) : Store :=
  match requireTS s "airstate/alt GND", requireTS s "airstate/throttle" with
  | some altP, some thrP =>
    if altP.2 ≠ thrP.2 then s else flightbookCore s altP.1 thrP.1 altP.2
  | _, _ => s

/-! ## Pass 3: power statistics (`MavSystem::_postprocess_powerstats`) -/

/-- The common trapezoidal-integration loop of the charge and consumption
blocks, continued after the first sample: per step `(tb-ta)*(fa+fb)/2`, and
the running sum divided by 3600 for the cumulative series. -/
def trapGo (ta fa acc : ℚ) : List (ℚ × ℚ) → List (ℚ × ℚ) × List (ℚ × ℚ)
  | [] => ([], [])
  | (tb, fb) :: rest =>
    let step := (tb - ta) * (fa + fb) / 2
    let acc' := acc + step
    let pr := trapGo tb fb acc' rest
    ((tb, step) :: pr.1, (tb, acc' / 3600) :: pr.2)

/-- The full trapezoidal loop: the first sample contributes `0` to both the
per-step and the cumulative series. -/
def trapLoop : List (ℚ × ℚ) → List (ℚ × ℚ) × List (ℚ × ℚ)
  | [] => ([], [])
  | (t0, f0) :: rest =>
    let pr := trapGo t0 f0 0 rest
    ((t0, 0) :: pr.1, (t0, 0) :: pr.2)

/-- The instantaneous power series: voltage times interpolated current at
each voltage timestamp (samples where interpolation fails are skipped). -/
def powerList (volt amps : List (ℚ × ℚ)) : List (ℚ × ℚ) :=
  volt.filterMap (fun sm => (interpAt amps sm.1).map (fun a => (sm.1, sm.2 * a)))

/-- Body of the power-statistics pass: resolve/create the five derived
outputs, clear them, set their epoch baselines, and recompute power (V×I),
charge (trapezoidal integral of current) and consumption (trapezoidal
integral of power). -/
def powerstatsCore (s : Store) (volt amps : List (ℚ × ℚ)) (e : Int) : Store :=
  let pP := getOrCreate s "power/power" .ts
  let pC := getOrCreate pP.2 "power/inst. consumption" .ts
  let pCh := getOrCreate pC.2 "power/inst. charge" .ts
  let pCC := getOrCreate pCh.2 "power/cum. consumption" .ts
  let pCCh := getOrCreate pCC.2 "power/cum. charge" .ts
  let pw := powerList volt amps
  let ch := trapLoop amps
  let co := trapLoop pw
  let s6 := setUnit pCCh.2 "power/power" { pP.1 with val := .ts pw, derived := true, epoch := e }
  let s7 := setUnit s6 "power/inst. consumption"
    { pC.1 with val := .ts co.1, derived := true, epoch := e }
  let s8 := setUnit s7 "power/inst. charge"
    { pCh.1 with val := .ts ch.1, derived := true, epoch := e }
  let s9 := setUnit s8 "power/cum. consumption"
    { pCC.1 with val := .ts co.2, derived := true, epoch := e }
  setUnit s9 "power/cum. charge" { pCCh.1 with val := .ts ch.2, derived := true, epoch := e }

/-- `MavSystem::_postprocess_powerstats()`: requires the battery voltage and
current series; aborts when either is missing or the epoch baselines
differ. -/
def postprocess_powerstats (s : Store) : Store :=
  match requireTS s "power/battery_voltage", requireTS s "power/battery_current" with
  | some voltP, some ampsP =>
    if voltP.2 ≠ ampsP.2 then s else powerstatsCore s voltP.1 ampsP.1 ampsP.2
  | _, _ => s

/-! ## Pass 4: glide performance, position based
(`MavSystem::_postprocess_glideperf_pos`) -/

/-- The cumulative-horizontal-distance loop.  `first` tracks `k = 0`; `xp`,
`yp`, `hp` model the locals `x_pre`, `y_pre`, `hdist_pre` (uninitialised in
the C++ source before the first accumulation; modelled as starting at 0).
The output series `acc` is appended to, never cleared, exactly as in the
source. -/
def glidePosLoop (ys zs : List (ℚ × ℚ)) :
    List (ℚ × ℚ) → Bool → ℚ → ℚ → ℚ → List (ℚ × ℚ) → List (ℚ × ℚ)
  | [], _, _, _, _, acc => acc
  | (t, x) :: rest, first, xp, yp, hp, acc =>
    match interpAt ys t, interpAt zs t with
    | some y, some _ =>
      if first then glidePosLoop ys zs rest false x y hp acc
      else
        let hdist := Rat.sqrt ((x - xp) ^ 2 + (y - yp) ^ 2) + hp
        glidePosLoop ys zs rest false x y hdist (acc ++ [(t, hdist)])
    | _, _ => glidePosLoop ys zs rest false xp yp hp acc

/-- `MavSystem::_postprocess_glideperf_pos()`: needs timeseries matching the
word patterns `PN`, `PE` and `PD`; accumulates horizontal distance into
`"glideperf/cum. horz. dist."`.  Note the pass never clears that output. -/
def postprocess_glideperf_pos (s : Store) : Store :=
  match findPatTS s (wordIn "PN"), findPatTS s (wordIn "PE"), findPatTS s (wordIn "PD") with
  | some ux, some uy, some uz =>
    let pr := getOrCreate s "glideperf/cum. horz. dist." .ts
    let out := glidePosLoop uy.tsOf uz.tsOf ux.tsOf true 0 0 0 pr.1.tsOf
    setUnit pr.2 "glideperf/cum. horz. dist." { pr.1 with val := .ts out, derived := true }
  | _, _, _ => s

/-! ## Pass 5: glide performance, velocity based
(`MavSystem::_postprocess_glideperf_vel`) -/

/-- The wind block loop over the wind-east samples, threading the store (the
relative-wind, head-wind and airspeed-estimate units are resolved/created
inside the loop) and accumulating the wind-direction and wind-speed
appends. -/
def windLoop (wN yaw gsp : List (ℚ × ℚ)) (haveGs : Bool) :
    List (ℚ × ℚ) → Store → List (ℚ × ℚ) → List (ℚ × ℚ) →
    Store × List (ℚ × ℚ) × List (ℚ × ℚ)
  | [], s, wdAcc, wsAcc => (s, wdAcc, wsAcc)
  | (t, wE) :: rest, s, wdAcc, wsAcc =>
    let wNv := interpD wN t 0
    let winddir := angle360 (180 / piQ * atan2Q (-wE) (-wNv))
    let windspd := Rat.sqrt (wE ^ 2 + wNv ^ 2)
    let yawv := deg2rad (angle360 (interpD yaw t 0))
    let winddir_inv := deg2rad (angle360 (winddir - 180))
    let windrel := acosQ (cosQ winddir_inv * cosQ yawv + sinQ winddir_inv * sinQ yawv)
    let windhd := -(cosQ windrel) * windspd
    let pr1 := getOrCreate s "glideperf/relative wind angle" .ts
    let pr2 := getOrCreate pr1.2 "glideperf/head wind" .ts
    let s3 := setUnit pr2.2 "glideperf/relative wind angle"
      { (pr1.1.appendTS t (rad2deg windrel)) with derived := true }
    let s4 := setUnit s3 "glideperf/head wind"
      { (pr2.1.appendTS t windhd) with derived := true }
    let s5 :=
      if haveGs then
        let pr3 := getOrCreate s4 "glideperf/airspeed estimate" .ts
        let asp := interpD gsp t 0 + windhd
        setUnit pr3.2 "glideperf/airspeed estimate"
          { (pr3.1.appendTS t asp) with derived := true }
      else s4
    windLoop wN yaw gsp haveGs rest s5 (wdAcc ++ [(t, winddir)]) (wsAcc ++ [(t, windspd)])

/-- The glide-ratio loop over the sink-rate samples.  The quasi-steady
filter admits a sample only when `airspeed > 5 && |pitch| < 20 && |roll| < 45
&& |accx| < 2`; the ratio is `airspeed / sink / cos(pi*|roll|/180)`.  The
first component of the result is `true` when the mid-loop lookup of the
airspeed estimate fails, which in the source returns from the whole pass. -/
def ratioLoop (s : Store) (accx pitch roll : List (ℚ × ℚ))
    (asp? : Option (List (ℚ × ℚ))) (haveWind : Bool) (gsp : List (ℚ × ℚ)) :
    List (ℚ × ℚ) → List (ℚ × ℚ) → Bool × List (ℚ × ℚ)
  | [], acc => (false, acc)
  | (t, sink) :: rest, acc =>
    if sink > 0 then
      let accxv := interpD accx t 0
      let aspv? : Option ℚ :=
        match asp? with
        | some aspl => some (interpD aspl t 0)
        | none =>
          if haveWind then
            match requireTS s "glideperf/airspeed estimate" with
            | some estP => some (interpD estP.1 t 0)
            | none => none
          else some (interpD gsp t 0)
      match aspv? with
      | none => (true, acc)
      | some asp =>
        let pitchv := interpD pitch t 0
        let rollv := interpD roll t 0
        if asp > 5 ∧ |pitchv| < 20 ∧ |rollv| < 45 ∧ |accxv| < 2 then
          ratioLoop s accx pitch roll asp? haveWind gsp rest
            (acc ++ [(t, asp / sink / cosQ (piQ * |rollv| / 180))])
        else ratioLoop s accx pitch roll asp? haveWind gsp rest acc
    else ratioLoop s accx pitch roll asp? haveWind gsp rest acc

/-- Body of the velocity-based pass once the prerequisite check passed:
resolve and clear the glide-ratio series, run the wind block when wind data
is present (the wind outputs are appended to, not cleared), run the
glide-ratio loop, and derive the 5-second moving average. -/
def glideVelMain (s : Store) (roll accx pitch sink : List (ℚ × ℚ))
    (asp? gsp? : Option (List (ℚ × ℚ))) (haveWind : Bool)
    (wE wN yaw : List (ℚ × ℚ)) : Store :=
  let prG := getOrCreate s "glideperf/glide ratio" .ts
  let s2 :=
    if haveWind then
      let prWd := getOrCreate prG.2 "glideperf/wind direction" .ts
      let prWs := getOrCreate prWd.2 "glideperf/wind speed" .ts
      let wres := windLoop wN yaw (gsp?.getD []) gsp?.isSome wE prWs.2 [] []
      let sd := setUnit wres.1 "glideperf/wind direction"
        { prWd.1 with val := .ts (prWd.1.tsOf ++ wres.2.1), derived := true }
      setUnit sd "glideperf/wind speed"
        { prWs.1 with val := .ts (prWs.1.tsOf ++ wres.2.2), derived := true }
    else prG.2
  let rres := ratioLoop s2 accx pitch roll asp? haveWind (gsp?.getD []) sink []
  let s3 := setUnit s2 "glideperf/glide ratio"
    { prG.1 with val := .ts rres.2, derived := true }
  if rres.1 then s3
  else
    let pr5 := getOrCreate s3 "glideperf/glide ratio 5sec avg" .ts
    setUnit pr5.2 "glideperf/glide ratio 5sec avg"
      { pr5.1 with val := .ts (movingAverage rres.2 5) }

/-- `MavSystem::_postprocess_glideperf_vel()`: the pattern searches for
roll, longitudinal acceleration, pitch, wind estimates, airspeed, ground
speed (fusing `NKF1/VE`/`NKF1/VN` into a derived series when present) and
sink rate, followed by the prerequisite guard.  The `maxratio`/`optspeed`
tracking of the source only feeds a log message and is omitted. -/
def postprocess_glideperf_vel (s : Store) : Store :=
  let roll? := findPatTS s (fun p => wordIn "roll" p || wordIn "Roll" p)
  let accx? := findPatTS s (wordIn "AccX")
  let pitch? := findPatTS s (fun p => wordIn "pitch" p || wordIn "Pitch" p)
  let wE? := findPatTS s (wordIn "VWE")
  let wN? := findPatTS s (wordIn "VWN")
  let yaw? := findPatTS s (wordIn "Yaw")
  let haveWind := wE?.isSome && wN?.isSome && yaw?.isSome
  let airspeed? : Option DUnit :=
    match findPatTS s (wordIn "TrueSpeed") with
    | some u => if tsValMax u.tsOf - tsValMin u.tsOf > 5 then some u else none
    | none => none
  let gfuse :=
    match findPatTS s (substrIn "NKF1/VE"), findPatTS s (substrIn "NKF1/VN") with
    | some u1, some u2 =>
      let prGs := getOrCreate s "glideperf/groundspeed" .ts
      let fused := u1.tsOf.filterMap (fun sm : ℚ × ℚ => (interpAt u2.tsOf sm.1).map
        (fun vn => (sm.1, Rat.sqrt (sm.2 ^ 2 + vn ^ 2))))
      let uGs' := { prGs.1 with val := .ts (prGs.1.tsOf ++ fused), derived := true }
      (some uGs', setUnit prGs.2 "glideperf/groundspeed" uGs')
    | _, _ => ((none : Option DUnit), s)
  let s1 := gfuse.2
  let gspeed? : Option DUnit :=
    match gfuse.1 with
    | some u => some u
    | none =>
      match findPatTS s1 (substrIn "GPS/Spd") with
      | some u => if tsValMax u.tsOf - tsValMin u.tsOf > 5 then some u else none
      | none => none
  let sink? :=
    match findPatTS s1 (wordIn "VD") with
    | some u => some u
    | none => findPatTS s1 (substrIn "GPS/VZ")
  match roll?, accx?, pitch?, sink? with
  | some uR, some uA, some uP, some uS =>
    if airspeed?.isSome || gspeed?.isSome then
      glideVelMain s1 uR.tsOf uA.tsOf uP.tsOf uS.tsOf (airspeed?.map DUnit.tsOf)
        (gspeed?.map DUnit.tsOf) haveWind
        ((wE?.map DUnit.tsOf).getD []) ((wN?.map DUnit.tsOf).getD [])
        ((yaw?.map DUnit.tsOf).getD [])
    else s1
  | _, _, _, _ => s1

/-- `MavSystem::postprocess()`: the five passes in source order. -/
def postprocess (s : Store) : Store :=
  postprocess_glideperf_vel (postprocess_glideperf_pos
    (postprocess_powerstats (postprocess_flightbook (postprocess_bad_timing s))))

/-! ## System-level merge (`MavSystem::merge_in`) -/

/-- The unit-copy loop of `MavSystem::merge_in`: every unit of the other
system is offered to `_add_data`; a failure is logged and skipped, and the
`added` flag records whether any unit was merged or copied. -/
def mergeFold (s : Store) (l : List (String × DUnit)) : Store × Bool :=
  l.foldl (fun acc e =>
    let r := add_data acc.1 e.1 e.2
    (r.1, acc.2 || r.2)) (s, false)

/-- `MavSystem::merge_in(other)`: after the unit-copy loop, when anything
was added the pipeline is re-run and the absolute time redetermined; the
function then returns `true` (the `return false` on a failed unit is
commented out in the source). -/
def merge_in (m other : MavSys) : Bool × MavSys :=
  let fd := mergeFold m.store other.store
  let m1 : MavSys := { m with store := fd.1 }
  if fd.2 then (true, determine_absolute_time { m1 with store := postprocess m1.store })
  else (true, m1)

/-! ## Hierarchy store (`MavSystem::_data_register_hierarchy` /
`_data_unregister_hierarchy` / `_del_data`)

Paths are modelled at the level of their slash-separated segment lists (the
split performed by `string_split(fullpath, '/', path)`); the flat map
`_data_from_path` is modelled as the list of its keys (the mapped-to pointers
play no role in the hierarchy claim), and a `DataGroup` as a tree node with
its child-group map and its unit-name map.  `Data::get_fullname` (not in the
sources) rebuilds a unit's full path from its parent chain, so unregistering
a unit is modelled by its registered path. -/

/-- A `DataGroup`: child groups keyed by name, and the names of the data
units attached to the group. -/
inductive GTree where
  | node (groups : List (String × GTree)) (data : List String)

def GTree.groups : GTree → List (String × GTree)
  | .node gs _ => gs

def GTree.data : GTree → List String
  | .node _ ds => ds

def lookupG : List (String × GTree) → String → Option GTree
  | [], _ => none
  | (q, g) :: rest, p => if q = p then some g else lookupG rest p

def setG : List (String × GTree) → String → GTree → List (String × GTree)
  | [], _, _ => []
  | (q, g) :: rest, p, g' => if q = p then (q, g') :: rest else (q, g) :: setG rest p g'

def removeG : List (String × GTree) → String → List (String × GTree)
  | [], _ => []
  | (q, g) :: rest, p => if q = p then rest else (q, g) :: removeG rest p

/-- Insert a unit name into a group's unit map (`curgroup->data[name] = item`:
a map assignment, so re-registering an existing name is not a duplicate). -/
def insertD (b : String) (ds : List String) : List String :=
  if b ∈ ds then ds else ds ++ [b]

def removeD (b : String) : List String → List String
  | [] => []
  | x :: rest => if x = b then rest else x :: removeD b rest

/-- The group-walking part of `_data_register_hierarchy`: descend along the
path segments, creating missing groups, and attach the unit name to the
final group. -/
def regG : List String → String → GTree → GTree
  | [], b, .node gs ds => .node gs (insertD b ds)
  | p :: ps, b, .node gs ds =>
    match lookupG gs p with
    | some g => .node (setG gs p (regG ps b g)) ds
    | none => .node (gs ++ [(p, regG ps b (.node [] []))]) ds

/-- Whether a group has neither child groups nor units
(`curgroup->groups.empty() && curgroup->data.empty()`). -/
def GTree.isEmptyG : GTree → Bool
  | .node gs ds => gs.isEmpty && ds.isEmpty

/-- The tree part of `_del_data` / `_data_unregister_hierarchy`: remove the
unit name from the group at the path, then prune every group on the path
that has become empty. -/
def unregG : List String → String → GTree → GTree
  | [], b, .node gs ds => .node gs (removeD b ds)
  | p :: ps, b, .node gs ds =>
    match lookupG gs p with
    | none => .node gs ds
    | some g =>
      let g' := unregG ps b g
      if g'.isEmptyG then .node (removeG gs p) ds else .node (setG gs p g') ds

/-- The hierarchy slice of a `MavSystem`: the keys of `_data_from_path` and
the top-level group map `mav_data_groups` (as the children of a virtual
root whose own unit map stays empty). -/
structure HStore where
  flat : List (List String)
  root : GTree

def emptyHStore : HStore := { flat := [], root := .node [] [] }

/-- Add a key to the flat map (map subscript assignment: no duplicate). -/
def insertU (q : List String) (l : List (List String)) : List (List String) :=
  if q ∈ l then l else l ++ [q]

/-- Erase a key from the flat map. -/
def removeU (q : List String) : List (List String) → List (List String)
  | [] => []
  | x :: rest => if x = q then rest else x :: removeU q rest

/-- `MavSystem::_data_register_hierarchy(fullname, item)` on the segment list
of `fullname`: the flat map always receives the key; the path without its
basename is walked (creating groups) and the basename attached — unless the
path has no group part, in which case `curgroup` stays `NULL` and the source
returns with the tree untouched. -/
def data_register_hierarchy (s : HStore) (segs : List String) : HStore :=
  let flat' := insertU segs s.flat
  match segs.dropLast, segs.getLastD "" with
  | [], _ => { s with flat := flat' }
  | p :: ps, b => { flat := flat', root := regG (p :: ps) b s.root }

/-- `MavSystem::_del_data(src)` for the unit registered at `segs`: erase the
key from the flat map, then unhook from the hierarchy (when the unit has a
parent group) and prune empty groups. -/
def del_data (s : HStore) (segs : List String) : HStore :=
  let flat' := removeU segs s.flat
  match segs.dropLast, segs.getLastD "" with
  | [], _ => { s with flat := flat' }
  | p :: ps, b => { flat := flat', root := unregG (p :: ps) b s.root }

/-- One hierarchy operation: a registration or a removal. -/
inductive HOp where
  | reg (segs : List String)
  | del (segs : List String)

def applyHOp (s : HStore) : HOp → HStore
  | .reg segs => data_register_hierarchy s segs
  | .del segs => del_data s segs

/-- A sequence of hierarchy operations applied to a fresh system. -/
def runHOps (ops : List HOp) : HStore := ops.foldl applyHOp emptyHStore

/-- All full unit paths reachable by walking a child-group map. -/
def pathsL : List (String × GTree) → List (List String)
  | [] => []
  | (p, .node gs2 ds2) :: rest =>
    (ds2.map (fun b => [p, b])) ++ (pathsL gs2).map (fun q => p :: q) ++ pathsL rest

/-- All full unit paths reachable by walking a tree from its root. -/
def GTree.paths : GTree → List (List String)
  | .node gs ds => ds.map (fun b => [b]) ++ pathsL gs

/-- The group reached by descending along a segment path. -/
def groupAt : GTree → List String → Option GTree
  | t, [] => some t
  | t, p :: ps =>
    match lookupG t.groups p with
    | some g => groupAt g ps
    | none => none

def nodupB : List String → Bool
  | [] => true
  | x :: rest => decide (x ∉ rest) && nodupB rest

def keysG (gs : List (String × GTree)) : List String := gs.map Prod.fst

/-- Structural well-formedness of a child-group map: unit names and group
keys are duplicate free, and every attached group is nonempty. -/
def wfL : List (String × GTree) → Bool
  | [] => true
  | (_, .node gs2 ds2) :: rest =>
    nodupB ds2 && nodupB (keysG gs2) && !(gs2.isEmpty && ds2.isEmpty) && wfL gs2 && wfL rest

def wfT : GTree → Bool
  | .node gs ds => nodupB ds && nodupB (keysG gs) && wfL gs

/-- The invariant maintained by registrations and removals: the virtual root
carries no units of its own, the tree is well formed, the flat map is
duplicate free, and the flat map and the tree paths coincide. -/
def hinv (s : HStore) : Prop :=
  s.root.data = [] ∧ wfT s.root = true ∧ s.flat.Nodup ∧
  (∀ q : List String, q ∈ s.flat ↔ q ∈ s.root.paths)

/-! ## Active time span (`MavSystem::get_time_active_begin_usec` /
`get_time_active_end_usec`) -/

/-- `ULONG_MAX` on the LP64 targets the source is built for. -/
def ULONG_MAX : ℕ := 18446744073709551615

/-- The time-span slice of a data unit: its epoch baseline (µs) and the
relative sample times (µs).  `Data::get_epoch_dataend` is modelled from the
spec as the absolute time of the latest sample. -/
structure TUnit where
  epoch_datastart : ℕ
  rel_usec : List ℕ
deriving DecidableEq

/-- Modelled from the spec: `Data::get_epoch_dataend()` — the absolute epoch
time of the unit's latest sample. -/
def TUnit.epoch_dataend (u : TUnit) : ℕ :=
  u.epoch_datastart + u.rel_usec.foldl max 0

/-- `MavSystem::get_time_active_begin_usec()`: minimum `epoch_datastart`
over all data units, starting from `ULONG_MAX`. -/
def get_time_active_begin_usec (units : List TUnit) : ℕ :=
  units.foldl (fun acc u => if u.epoch_datastart < acc then u.epoch_datastart else acc)
    ULONG_MAX

/-- `MavSystem::get_time_active_end_usec()`: maximum `epoch_dataend` over
all data units, starting from `0`. -/
def get_time_active_end_usec (units : List TUnit) : ℕ :=
  units.foldl (fun acc u => if u.epoch_dataend > acc then u.epoch_dataend else acc) 0

/-- Append one in-range sample (relative time `t` µs) to the `i`-th data
unit of the system. -/
def addSample : List TUnit → ℕ → ℕ → List TUnit
  | [], _, _ => []
  | u :: rest, 0, t => { u with rel_usec := u.rel_usec ++ [t] } :: rest
  | u :: rest, i + 1, t => u :: addSample rest i t

/-! ## Specification-side functions

The following definitions restate, in the spec's own terms, what the
flight-book and power-statistics passes are claimed to compute; the claim
theorems relate the embedded source code to them. -/

/-- The classified altitude walk of the spec: at each altitude sample whose
timestamp admits a throttle interpolation, whether the vehicle seems to be
flying (`altitude > 1` and `throttle > 20`). -/
def flyList (alt thr : List (ℚ × ℚ)) : List (ℚ × Bool) :=
  alt.filterMap (fun sm =>
    (interpAt thr sm.1).map (fun h => (sm.1, decide (sm.2 > 1) && decide (h > 20))))

/-- Edge extraction: a takeoff event at every false-to-true edge of the
classification and a landing event at every true-to-false edge, given the
previous flying state. -/
def edgeEvents : Bool → List (ℚ × Bool) → List (ℚ × String)
  | _, [] => []
  | prev, (t, b) :: rest =>
    if b && !prev then (t, "takeoff") :: edgeEvents true rest
    else if !b && prev then (t, "landing") :: edgeEvents false rest
    else edgeEvents prev rest

/-- The number of takeoff events. -/
def countTakeoffs (evs : List (ℚ × String)) : ℕ :=
  (evs.filter (fun e => e.2 == "takeoff")).length

/-- Summed flight duration of an alternating takeoff/landing event list:
each even-position event opens a flight, the following event closes it (an
open flight at the end contributes nothing, matching the source, which adds
to the flight time only on landing). -/
def sumFlights : List (ℚ × String) → ℚ
  | [] => 0
  | (t1, _) :: rest =>
    match rest with
    | [] => 0
    | (t2, _) :: r => (t2 - t1) + sumFlights r

/-- Summed flight duration when a flight opened at `t0` is in progress. -/
def sumOpen (t0 : ℚ) : List (ℚ × String) → ℚ
  | [] => 0
  | (t2, _) :: r => (t2 - t0) + sumFlights r

/-- The flight-book step on an already classified sample. -/
def fbStepB (st : FBState) (sm : ℚ × Bool) : FBState :=
  if sm.2 && !st.flying then
    { st with
        flying := true,
        evts := st.evts ++ [(sm.1, "takeoff")],
        nflights := st.nflights + 1,
        t_first_takeoff := if st.nflights + 1 = 1 then sm.1 else st.t_first_takeoff,
        t_takeoff := sm.1 }
  else if !sm.2 && st.flying then
    { st with
        flying := false,
        evts := st.evts ++ [(sm.1, "landing")],
        t_last_landing := sm.1,
        flighttime := st.flighttime + (sm.1 - st.t_takeoff) }
  else st

/-- The trapezoidal rule of the spec: one area term between each pair of
consecutive samples, stamped with the later timestamp. -/
def consecTrapezoids (l : List (ℚ × ℚ)) : List (ℚ × ℚ) :=
  (l.zip l.tail).map (fun pr => (pr.2.1, (pr.2.1 - pr.1.1) * (pr.1.2 + pr.2.2) / 2))

/-- Running prefix sums starting from `c`. -/
def prefixSums (c : ℚ) : List ℚ → List ℚ
  | [] => []
  | x :: rest => (c + x) :: prefixSums (c + x) rest

/-! ## Concrete inputs for the scenario and counterexample theorems -/

/-- The flight-book scenario store: altitude `[0,0,5,5,0,0]` and throttle
`[0,0,50,50,0,0]` at times `[0,1,2,3,4,5]`, equal epoch baselines. -/
def fbScenarioStore : Store :=
  [("airstate/alt GND",
    { val := .ts [(0, 0), (1, 0), (2, 5), (3, 5), (4, 0), (5, 0)] }),
   ("airstate/throttle",
    { val := .ts [(0, 0), (1, 0), (2, 50), (3, 50), (4, 0), (5, 0)] })]

/-- The power scenario store: constant 12 V and 2 A at times 0 and 10 s. -/
def psScenarioStore : Store :=
  [("power/battery_voltage", { val := .ts [(0, 12), (10, 12)] }),
   ("power/battery_current", { val := .ts [(0, 2), (10, 2)] })]

/-- A store holding only the three position series matched by the
position-based glide-performance pass. -/
def glidePosStore : Store :=
  [("nav/PN", { val := .ts [(0, 0), (1, 3)] }),
   ("nav/PE", { val := .ts [(0, 0), (1, 0)] }),
   ("nav/PD", { val := .ts [(0, 0), (1, 0)] })]

/-- The C2 scenario system: reference pairs `(0, 1000)` and
`(10_000_000, 1_011_000_000)` µs, owning two data units. -/
def c2System : MavSys :=
  { store := [("a/x", { val := .ts [(0, 1)], epoch := 7 }),
              ("b/y", { val := .evt [], epoch := 9 })],
    time_offset_raw := [(0, 1000), (10000000, 1011000000)] }

/-- A receiving system with one nonempty unit, for the merge counterexample. -/
def c3Receiver : MavSys :=
  { store := [("a/x", { val := .ts [(0, 1)] })] }

/-- A system owning no data units at all. -/
def c3EmptyOther : MavSys := { store := [] }

/-- A system with a single data unit, epoch 5 µs, one sample at 3 µs. -/
def c9Units : List TUnit := [{ epoch_datastart := 5, rel_usec := [3] }]

/-- A system owning one unit at a path absent from `c3Receiver`. -/
def c3OtherOne : MavSys :=
  { store := [("b/z", { val := .ts [(0, 2)] })] }

/-- A concrete valid time state used by witnesses: relative time 100 s. -/
def sampleTimeState : TimeState :=
  { time := 100, time_min := ((100 : ℚ) : WithTop ℚ),
    time_max := ((100 : ℚ) : WithBot ℚ), time_valid := true,
    have_time_update := true }

/-- Characterisation of `update_rel_time` when the time is already valid. -/
lemma update_rel_time_eq_of_valid (s : TimeState) (usec : ℕ) (aj : Bool)
    (hv : s.time_valid = true) :
    update_rel_time s usec aj =
      (if (usec : ℚ) / 1000000 - s.time < -5 ∧ aj = false then (-1, s)
       else if (usec : ℚ) / 1000000 - s.time > 100 ∧ aj = false then (1, s)
       else (0, { s with
          time_min := if (((usec : ℚ) / 1000000 : ℚ) : WithTop ℚ) < s.time_min
                      then (((usec : ℚ) / 1000000 : ℚ) : WithTop ℚ) else s.time_min,
          time_max := if (((usec : ℚ) / 1000000 : ℚ) : WithBot ℚ) > s.time_max
                      then (((usec : ℚ) / 1000000 : ℚ) : WithBot ℚ) else s.time_max,
          time := (usec : ℚ) / 1000000,
          have_time_update := true })) := by
  simp only [update_rel_time, hv, if_true, timeMaxBackjumpSec, timeMaxFwdjumpSec]

/-- Characterisation of `update_rel_time` on the very first update. -/
lemma update_rel_time_eq_of_invalid (s : TimeState) (usec : ℕ) (aj : Bool)
    (hv : s.time_valid = false) :
    update_rel_time s usec aj =
      (0, { s with
          time_min := if (((usec : ℚ) / 1000000 : ℚ) : WithTop ℚ) < s.time_min
                      then (((usec : ℚ) / 1000000 : ℚ) : WithTop ℚ) else s.time_min,
          time_max := if (((usec : ℚ) / 1000000 : ℚ) : WithBot ℚ) > s.time_max
                      then (((usec : ℚ) / 1000000 : ℚ) : WithBot ℚ) else s.time_max,
          time := (usec : ℚ) / 1000000,
          time_valid := true,
          have_time_update := true }) := by
  simp only [update_rel_time, hv, if_false, Bool.false_eq_true, timeMaxBackjumpSec,
    timeMaxFwdjumpSec]
  norm_num

lemma ite_lt_eq_min {α : Type} [LinearOrder α] (a b : α) :
    (if a < b then a else b) = min b a := by
  by_cases h : a < b
  · rw [if_pos h, min_eq_right h.le]
  · rw [if_neg h, min_eq_left (le_of_not_lt h)]

lemma ite_gt_eq_max {α : Type} [LinearOrder α] (a b : α) :
    (if a > b then a else b) = max b a := by
  by_cases h : a > b
  · rw [if_pos h, max_eq_right h.le]
  · rw [if_neg h, max_eq_left (le_of_not_lt h)]

/-- Claim C1: for a System whose time is valid, `update_rel_time` rejects the
candidate exactly when jumps are not allowed and the difference
`candidate_usec/1E6 - t` is below `-5` s (status `-1`) or above `100` s
(status `1`); on rejection the whole time state (current time, minimum and
maximum) is unchanged; otherwise the call returns `0`, sets the current time
to the candidate and extends the stored minimum/maximum to include it.  The
very first update (time not yet valid) always returns `0` and is accepted. -/
theorem update_rel_time_jump_policy (s : TimeState) (usec : ℕ) (aj : Bool) :
    (s.time_valid = true →
      (((update_rel_time s usec aj).1 ≠ 0 ↔
          (aj = false ∧ ((usec : ℚ) / 1000000 - s.time < -5 ∨
                         (usec : ℚ) / 1000000 - s.time > 100)))
       ∧ ((update_rel_time s usec aj).1 ≠ 0 → (update_rel_time s usec aj).2 = s)
       ∧ ((usec : ℚ) / 1000000 - s.time < -5 → aj = false →
            (update_rel_time s usec aj).1 = -1)
       ∧ (¬ ((usec : ℚ) / 1000000 - s.time < -5) →
            (usec : ℚ) / 1000000 - s.time > 100 → aj = false →
            (update_rel_time s usec aj).1 = 1)
       ∧ ((update_rel_time s usec aj).1 = 0 →
            ((update_rel_time s usec aj).2.time = (usec : ℚ) / 1000000
             ∧ (update_rel_time s usec aj).2.time_min
                 = min s.time_min (((usec : ℚ) / 1000000 : ℚ) : WithTop ℚ)
             ∧ (update_rel_time s usec aj).2.time_max
                 = max s.time_max (((usec : ℚ) / 1000000 : ℚ) : WithBot ℚ)))))
    ∧ (s.time_valid = false →
        ((update_rel_time s usec aj).1 = 0
         ∧ (update_rel_time s usec aj).2.time = (usec : ℚ) / 1000000
         ∧ (update_rel_time s usec aj).2.time_min
             = min s.time_min (((usec : ℚ) / 1000000 : ℚ) : WithTop ℚ)
         ∧ (update_rel_time s usec aj).2.time_max
             = max s.time_max (((usec : ℚ) / 1000000 : ℚ) : WithBot ℚ)
         ∧ (update_rel_time s usec aj).2.time_valid = true)) := by
  constructor
  · intro hv
    rw [update_rel_time_eq_of_valid s usec aj hv]
    by_cases h1 : (usec : ℚ) / 1000000 - s.time < -5 ∧ aj = false
    · rw [if_pos h1]
      refine ⟨?_, ?_, ?_, ?_, ?_⟩
      · exact ⟨fun _ => ⟨h1.2, Or.inl h1.1⟩, fun _ => by simp⟩
      · intro _; rfl
      · intro _ _; rfl
      · intro hc _ _; exact absurd h1.1 hc
      · intro hc; exact absurd hc (by simp)
    · rw [if_neg h1]
      by_cases h2 : (usec : ℚ) / 1000000 - s.time > 100 ∧ aj = false
      · rw [if_pos h2]
        refine ⟨?_, ?_, ?_, ?_, ?_⟩
        · exact ⟨fun _ => ⟨h2.2, Or.inr h2.1⟩, fun _ => by simp⟩
        · intro _; rfl
        · intro hlt haj; exact absurd ⟨hlt, haj⟩ h1
        · intro _ _ _; rfl
        · intro hc; exact absurd hc (by simp)
      · rw [if_neg h2]
        refine ⟨?_, ?_, ?_, ?_, ?_⟩
        · constructor
          · intro hc; exact absurd rfl hc
          · rintro ⟨haj, hlt | hgt⟩
            · exact absurd ⟨hlt, haj⟩ h1
            · exact absurd ⟨hgt, haj⟩ h2
        · intro hc; exact absurd rfl hc
        · intro hlt haj; exact absurd ⟨hlt, haj⟩ h1
        · intro _ hgt haj; exact absurd ⟨hgt, haj⟩ h2
        · intro _
          exact ⟨rfl, ite_lt_eq_min _ _, ite_gt_eq_max _ _⟩
  · intro hv
    rw [update_rel_time_eq_of_invalid s usec aj hv]
    exact ⟨rfl, rfl, ite_lt_eq_min _ _, ite_gt_eq_max _ _, rfl⟩

/-- Witness for C1: a System at valid relative time `t = 100 s` receiving a
candidate of `50 s` (backward jump of 50 s) without allow-jumps is rejected
with status `-1` and the state is unchanged. -/
theorem update_rel_time_jump_policy_witness :
    (update_rel_time sampleTimeState 50000000 false).1 = -1
    ∧ (update_rel_time sampleTimeState 50000000 false).2 = sampleTimeState := by
  have h := (update_rel_time_jump_policy sampleTimeState 50000000 false).1 rfl
  have hr : (update_rel_time sampleTimeState 50000000 false).1 = -1 :=
    h.2.2.1 (by norm_num [sampleTimeState]) rfl
  exact ⟨hr, h.2.1 (by rw [hr]; decide)⟩

/-! ## Association-list plumbing lemmas -/

lemma lookupUnit_setUnit_self (s : Store) (p : String) (u : DUnit) :
    lookupUnit (setUnit s p u) p = some u := by
  induction s with
  | nil => simp [setUnit, lookupUnit]
  | cons e rest ih =>
    obtain ⟨q, v⟩ := e
    by_cases h : q = p
    · simp [setUnit, h, lookupUnit]
    · simp [setUnit, h, lookupUnit, ih]

lemma lookupUnit_setUnit_ne (s : Store) (p q : String) (u : DUnit) (h : q ≠ p) :
    lookupUnit (setUnit s p u) q = lookupUnit s q := by
  induction s with
  | nil => simp [setUnit, lookupUnit, Ne.symm h]
  | cons e rest ih =>
    obtain ⟨r, v⟩ := e
    by_cases hr : r = p
    · subst hr
      simp [setUnit, lookupUnit, Ne.symm h]
    · simp only [setUnit, if_neg hr, lookupUnit]
      by_cases hq : r = q
      · simp [hq]
      · simp [hq, ih]

lemma lookupUnit_removeUnit_ne (s : Store) (p q : String) (h : q ≠ p) :
    lookupUnit (removeUnit s p) q = lookupUnit s q := by
  induction s with
  | nil => simp [removeUnit]
  | cons e rest ih =>
    obtain ⟨r, v⟩ := e
    by_cases hr : r = p
    · subst hr
      simp [removeUnit, lookupUnit, Ne.symm h]
    · simp only [removeUnit, if_neg hr, lookupUnit]
      by_cases hq : r = q
      · simp [hq]
      · simp [hq, ih]

lemma tsSamples_setUnit_self (s : Store) (p : String) (u : DUnit) :
    tsSamples (setUnit s p u) p = u.tsOf := by
  simp [tsSamples, lookupUnit_setUnit_self, DUnit.tsOf]

lemma tsSamples_setUnit_ne (s : Store) (p q : String) (u : DUnit) (h : q ≠ p) :
    tsSamples (setUnit s p u) q = tsSamples s q := by
  simp [tsSamples, lookupUnit_setUnit_ne s p q u h]

lemma getOrCreate_fst_val (s : Store) (p : String) :
    (getOrCreate s p .ts).1.val = .ts (tsSamples s p) := by
  simp only [getOrCreate, tsSamples]
  cases hl : lookupUnit s p with
  | none => simp [freshUnit]
  | some u =>
    cases hv : u.val with
    | ts l => simp [DVal.kind, hv]
    | evt l => simp [DVal.kind, freshUnit, hv]
    | pN l => simp [DVal.kind, freshUnit, hv]
    | pQ l => simp [DVal.kind, freshUnit, hv]

lemma getOrCreate_fst_tsOf (s : Store) (p : String) :
    (getOrCreate s p .ts).1.tsOf = tsSamples s p := by
  simp only [getOrCreate, tsSamples]
  cases hl : lookupUnit s p with
  | none => simp [freshUnit, DUnit.tsOf]
  | some u =>
    cases hv : u.val with
    | ts l => simp [DVal.kind, DUnit.tsOf, hv]
    | evt l => simp [DVal.kind, freshUnit, DUnit.tsOf, hv]
    | pN l => simp [DVal.kind, freshUnit, DUnit.tsOf, hv]
    | pQ l => simp [DVal.kind, freshUnit, DUnit.tsOf, hv]

lemma tsSamples_getOrCreate_snd (s : Store) (p q : String) :
    tsSamples (getOrCreate s p .ts).2 q = tsSamples s q := by
  by_cases hq : q = p
  · subst hq
    simp only [getOrCreate]
    cases hl : lookupUnit s q with
    | none =>
      simp [tsSamples, hl, lookupUnit_setUnit_self, freshUnit, DUnit.tsOf]
    | some u =>
      by_cases hk : u.val.kind = DKind.ts
      · simp [hk, tsSamples, hl]
      · cases hv : u.val <;>
          simp_all [tsSamples, hl, lookupUnit_setUnit_self, freshUnit, DVal.kind]
  · simp only [getOrCreate]
    cases hl : lookupUnit s p with
    | none => simp [tsSamples, lookupUnit_setUnit_ne s p q _ hq]
    | some u =>
      by_cases hk : u.val.kind = DKind.ts
      · simp [hk]
      · simp [hk, tsSamples, lookupUnit_setUnit_ne s p q _ hq]

lemma lookupUnit_getOrCreate_snd_ne (s : Store) (p q : String) (k : DKind) (h : q ≠ p) :
    lookupUnit (getOrCreate s p k).2 q = lookupUnit s q := by
  simp only [getOrCreate]
  cases hl : lookupUnit s p with
  | none => simp [lookupUnit_setUnit_ne s p q _ h]
  | some u =>
    by_cases hk : u.val.kind = k
    · simp [hk]
    · simp [hk, lookupUnit_setUnit_ne s p q _ h]

/-- Claim C10: `track_sysperf(load, bat_V, bat_A)` always appends the
autopilot-load sample to `computer/autopilot_load`, appends the battery
current to `power/battery_current` exactly when `bat_A > 0`, and appends the
battery voltage to `power/battery_voltage` exactly when `bat_V > 0`; zero or
negative values leave those two series unchanged. -/
theorem track_sysperf_conditional_append (s : Store) (time load bv ba : ℚ) :
    tsSamples (track_sysperf s time load bv ba) "computer/autopilot_load"
      = tsSamples s "computer/autopilot_load" ++ [(time, load)]
    ∧ tsSamples (track_sysperf s time load bv ba) "power/battery_current"
      = tsSamples s "power/battery_current" ++ (if ba > 0 then [(time, ba)] else [])
    ∧ tsSamples (track_sysperf s time load bv ba) "power/battery_voltage"
      = tsSamples s "power/battery_voltage" ++ (if bv > 0 then [(time, bv)] else []) := by
  simp only [track_sysperf]
  refine ⟨?_, ?_, ?_⟩
  · by_cases hv : bv > 0 <;> by_cases ha : ba > 0 <;>
      simp [hv, ha, tsSamples_setUnit_ne _ _ _ _ (by decide : ("computer/autopilot_load" : String) ≠ "power/battery_voltage"),
        tsSamples_setUnit_ne _ _ _ _ (by decide : ("computer/autopilot_load" : String) ≠ "power/battery_current"),
        tsSamples_setUnit_self, DUnit.appendTS, DUnit.tsOf, getOrCreate_fst_tsOf, getOrCreate_fst_val,
        tsSamples_getOrCreate_snd]
  · by_cases hv : bv > 0 <;> by_cases ha : ba > 0 <;>
      simp [hv, ha, tsSamples_setUnit_ne _ _ _ _ (by decide : ("power/battery_current" : String) ≠ "power/battery_voltage"),
        tsSamples_setUnit_ne _ _ _ _ (by decide : ("power/battery_current" : String) ≠ "computer/autopilot_load"),
        tsSamples_setUnit_self, DUnit.appendTS, DUnit.tsOf, getOrCreate_fst_tsOf, getOrCreate_fst_val,
        tsSamples_getOrCreate_snd]
  · by_cases hv : bv > 0 <;> by_cases ha : ba > 0 <;>
      simp [hv, ha, tsSamples_setUnit_ne _ _ _ _ (by decide : ("power/battery_voltage" : String) ≠ "power/battery_current"),
        tsSamples_setUnit_ne _ _ _ _ (by decide : ("power/battery_voltage" : String) ≠ "computer/autopilot_load"),
        tsSamples_setUnit_self, DUnit.appendTS, DUnit.tsOf, getOrCreate_fst_tsOf, getOrCreate_fst_val,
        tsSamples_getOrCreate_snd]

/-- Counterexample for C8 as stated: the heading value `-10` is outside the
interval `[0, 360]`, yet `track_paths` appends it to `airstate/heading`,
because the source only checks `heading_deg <= 360.f`. -/
theorem track_paths_negative_heading_recorded :
    ((-10 : ℚ) < 0)
    ∧ tsSamples (track_paths [] 1 2 3 4 5 (-10)) "airstate/heading" = [(1, -10)] := by
  constructor
  · norm_num
  · norm_num +decide [track_paths, getOrCreate, lookupUnit, setUnit, freshUnit,
      DUnit.appendTS, DUnit.tsOf, tsSamples]

/-- Claim C8 (amended): `track_paths` drops the heading sample exactly when
`heading_deg > 360` (values `≤ 360`, including negative ones, are appended);
the latitude, longitude and both altitude samples of the same call are
always appended. -/
theorem track_paths_heading_bound (s : Store) (time lat lon ar am hd : ℚ) :
    tsSamples (track_paths s time lat lon ar am hd) "airstate/heading"
      = tsSamples s "airstate/heading" ++ (if hd ≤ 360 then [(time, hd)] else [])
    ∧ tsSamples (track_paths s time lat lon ar am hd) "airstate/lat"
      = tsSamples s "airstate/lat" ++ [(time, lat)]
    ∧ tsSamples (track_paths s time lat lon ar am hd) "airstate/lon"
      = tsSamples s "airstate/lon" ++ [(time, lon)]
    ∧ tsSamples (track_paths s time lat lon ar am hd) "airstate/alt GND"
      = tsSamples s "airstate/alt GND" ++ [(time, ar)]
    ∧ tsSamples (track_paths s time lat lon ar am hd) "airstate/alt MSL"
      = tsSamples s "airstate/alt MSL" ++ [(time, am)] := by
  simp only [track_paths]
  by_cases hh : hd ≤ 360 <;>
    refine ⟨?_, ?_, ?_, ?_, ?_⟩ <;>
    simp [hh, tsSamples_setUnit_self, DUnit.appendTS, DUnit.tsOf, getOrCreate_fst_val,
      tsSamples_getOrCreate_snd,
      tsSamples_setUnit_ne _ _ _ _ (by decide : ("airstate/heading" : String) ≠ "airstate/alt MSL"),
      tsSamples_setUnit_ne _ _ _ _ (by decide : ("airstate/heading" : String) ≠ "airstate/alt GND"),
      tsSamples_setUnit_ne _ _ _ _ (by decide : ("airstate/heading" : String) ≠ "airstate/lon"),
      tsSamples_setUnit_ne _ _ _ _ (by decide : ("airstate/heading" : String) ≠ "airstate/lat"),
      tsSamples_setUnit_ne _ _ _ _ (by decide : ("airstate/lat" : String) ≠ "airstate/heading"),
      tsSamples_setUnit_ne _ _ _ _ (by decide : ("airstate/lat" : String) ≠ "airstate/alt MSL"),
      tsSamples_setUnit_ne _ _ _ _ (by decide : ("airstate/lat" : String) ≠ "airstate/alt GND"),
      tsSamples_setUnit_ne _ _ _ _ (by decide : ("airstate/lat" : String) ≠ "airstate/lon"),
      tsSamples_setUnit_ne _ _ _ _ (by decide : ("airstate/lon" : String) ≠ "airstate/heading"),
      tsSamples_setUnit_ne _ _ _ _ (by decide : ("airstate/lon" : String) ≠ "airstate/alt MSL"),
      tsSamples_setUnit_ne _ _ _ _ (by decide : ("airstate/lon" : String) ≠ "airstate/alt GND"),
      tsSamples_setUnit_ne _ _ _ _ (by decide : ("airstate/alt GND" : String) ≠ "airstate/heading"),
      tsSamples_setUnit_ne _ _ _ _ (by decide : ("airstate/alt GND" : String) ≠ "airstate/alt MSL"),
      tsSamples_setUnit_ne _ _ _ _ (by decide : ("airstate/alt MSL" : String) ≠ "airstate/heading")]

/-- Claim C2: `determine_absolute_time()` sets the absolute offset to the
mean of `(absolute - relative)` over all reference pairs rounded to the
nearest microsecond whenever at least one pair exists, and to the recorded
guess offset otherwise; the offset is then stored as the epoch baseline of
every owned data unit.  For the pairs `(0, 1000)` and
`(10_000_000, 1_011_000_000)` µs the offset is the rounded mean of `1000`
and `1_001_000_000`, i.e. `500_500_500`. -/
theorem determine_absolute_time_mean_offset (m : MavSys) :
    (m.time_offset_raw = [] →
      (determine_absolute_time m).time_offset_usec = m.time_offset_guess_usec)
    ∧ (m.time_offset_raw ≠ [] →
      (determine_absolute_time m).time_offset_usec
        = cround (((m.time_offset_raw.map (fun pr => (pr.2 : ℚ) - (pr.1 : ℚ))).sum)
                   / (m.time_offset_raw.length : ℚ)))
    ∧ ((determine_absolute_time m).store.map (fun e => e.2.epoch)
        = (determine_absolute_time m).store.map
            (fun _ => (determine_absolute_time m).time_offset_usec))
    ∧ (determine_absolute_time c2System).time_offset_usec = 500500500
    ∧ (determine_absolute_time c2System).store.map (fun e => e.2.epoch)
        = [500500500, 500500500] := by
  refine ⟨?_, ?_, ?_, ?_, ?_⟩
  · intro h; simp [determine_absolute_time, h]
  · intro h
    simp [determine_absolute_time, List.isEmpty_iff, h]
  · simp [determine_absolute_time]
  · norm_num +decide [determine_absolute_time, c2System, cround, Int.floor_eq_iff]
  · norm_num +decide [determine_absolute_time, c2System, cround, Int.floor_eq_iff]

/-- Witness for C2: the scenario system has reference pairs, and the offset
equals the rounded mean formula. -/
theorem determine_absolute_time_mean_offset_witness :
    c2System.time_offset_raw ≠ []
    ∧ (determine_absolute_time c2System).time_offset_usec
        = cround (((c2System.time_offset_raw.map (fun pr => (pr.2 : ℚ) - (pr.1 : ℚ))).sum)
                   / (c2System.time_offset_raw.length : ℚ)) := by
  have h := (determine_absolute_time_mean_offset c2System).2.1
  exact ⟨by decide, h (by decide)⟩

/-- Preservation: `_add_data` never removes an existing path. -/
lemma add_data_preserves_isSome (s : Store) (p q : String) (u : DUnit)
    (h : (lookupUnit s q).isSome = true) :
    (lookupUnit (add_data s p u).1 q).isSome = true := by
  by_cases hq : q = p
  · subst hq
    simp only [add_data]
    cases hl : lookupUnit s q with
    | none => simp [lookupUnit_setUnit_self]
    | some mine =>
      by_cases hp : mine.is_present
      · cases hm : unitMergeVal mine.val u.val with
        | none => simp [hp, hm, hl]
        | some merged => simp [hp, hm, lookupUnit_setUnit_self]
      · simp [hp, lookupUnit_setUnit_self]
  · simp only [add_data]
    cases hl : lookupUnit s p with
    | none => simp [lookupUnit_setUnit_ne _ _ _ _ hq, h]
    | some mine =>
      by_cases hp : mine.is_present
      · cases hm : unitMergeVal mine.val u.val with
        | none => simp [hp, hm, h]
        | some merged => simp [hp, hm, lookupUnit_setUnit_ne _ _ _ _ hq, h]
      · simp [hp, lookupUnit_setUnit_ne _ _ _ _ hq,
          lookupUnit_removeUnit_ne _ _ _ hq, h]

/-- `_add_data` leaves the offered path present (it merges, replaces or
copies — and even on a representation mismatch the old unit stays). -/
lemma add_data_isSome_self (s : Store) (p : String) (u : DUnit) :
    (lookupUnit (add_data s p u).1 p).isSome = true := by
  simp only [add_data]
  cases hl : lookupUnit s p with
  | none => simp [lookupUnit_setUnit_self]
  | some mine =>
    by_cases hp : mine.is_present
    · cases hm : unitMergeVal mine.val u.val with
      | none => simp [hp, hm, hl]
      | some merged => simp [hp, hm, lookupUnit_setUnit_self]
    · simp [hp, lookupUnit_setUnit_self]

lemma mergeFold_step_preserves (l : List (String × DUnit)) :
    ∀ (init : Store × Bool) (q : String),
      (lookupUnit init.1 q).isSome = true →
      (lookupUnit (l.foldl (fun acc e =>
          let r := add_data acc.1 e.1 e.2
          (r.1, acc.2 || r.2)) init).1 q).isSome = true := by
  induction l with
  | nil => intro init q h; exact h
  | cons e rest ih =>
    intro init q h
    exact ih _ q (add_data_preserves_isSome _ _ _ _ h)

lemma mergeFold_mem_isSome (l : List (String × DUnit)) :
    ∀ (init : Store × Bool) (p : String) (u : DUnit), (p, u) ∈ l →
      (lookupUnit (l.foldl (fun acc e =>
          let r := add_data acc.1 e.1 e.2
          (r.1, acc.2 || r.2)) init).1 p).isSome = true := by
  induction l with
  | nil => intro _ _ _ h; exact absurd h (List.not_mem_nil _)
  | cons e rest ih =>
    intro init p u h
    rcases List.mem_cons.mp h with he | hr
    · subst he
      exact mergeFold_step_preserves rest _ p (add_data_isSome_self _ _ _)
    · exact ih _ p u hr

/-- Counterexample for C3 as stated: merging a system that owns no units at
all merges or copies nothing, leaves the receiver unchanged, and still
reports success (`merge_in` returns `true` unconditionally; the `return
false` on a failed unit is commented out in the source). -/
theorem merge_in_success_without_merge :
    (merge_in c3Receiver c3EmptyOther).1 = true
    ∧ c3EmptyOther.store = []
    ∧ (merge_in c3Receiver c3EmptyOther).2 = c3Receiver := by
  refine ⟨rfl, rfl, ?_⟩
  show ({ c3Receiver with store := c3Receiver.store } : MavSys) = c3Receiver
  rfl

/-- Claim C3 (amended): the unit-copy loop of `merge_in` processes every
unit of the other system — a unit whose merge fails is skipped and the
remaining units are still attempted, so every offered path is present in
the loop result — but the merge reports success unconditionally (it returns
`true` even when no unit was merged or copied). -/
theorem merge_in_always_reports_success (a b : MavSys) :
    (merge_in a b).1 = true
    ∧ (∀ p u, (p, u) ∈ b.store →
        (lookupUnit (mergeFold a.store b.store).1 p).isSome = true) := by
  constructor
  · cases h : (mergeFold a.store b.store).2 <;> simp [merge_in, h]
  · intro p u h
    exact mergeFold_mem_isSome b.store _ p u h

/-- Witness for C3 (amended): merging a one-unit system into `c3Receiver`
reports success and the offered path is present after the loop. -/
theorem merge_in_always_reports_success_witness :
    (merge_in c3Receiver c3OtherOne).1 = true
    ∧ (lookupUnit (mergeFold c3Receiver.store c3OtherOne.store).1 "b/z").isSome = true := by
  have h := merge_in_always_reports_success c3Receiver c3OtherOne
  exact ⟨h.1, h.2 "b/z" { val := .ts [(0, 2)] } (by decide)⟩

/-! ## Flight-book refinement lemmas -/

lemma evtSamples_setUnit_ne (s : Store) (p q : String) (u : DUnit) (h : q ≠ p) :
    evtSamples (setUnit s p u) q = evtSamples s q := by
  simp [evtSamples, lookupUnit_setUnit_ne _ _ _ _ h]

lemma pNVals_setUnit_ne (s : Store) (p q : String) (u : DUnit) (h : q ≠ p) :
    pNVals (setUnit s p u) q = pNVals s q := by
  simp [pNVals, lookupUnit_setUnit_ne _ _ _ _ h]

lemma pQVals_setUnit_ne (s : Store) (p q : String) (u : DUnit) (h : q ≠ p) :
    pQVals (setUnit s p u) q = pQVals s q := by
  simp [pQVals, lookupUnit_setUnit_ne _ _ _ _ h]

/-- The flight-book step equals the classified step on the classified
sample. -/
lemma fbStep_eq (thr : List (ℚ × ℚ)) (st : FBState) (sm : ℚ × ℚ) :
    fbStep thr st sm =
      (match interpAt thr sm.1 with
       | none => st
       | some h => fbStepB st (sm.1, decide (sm.2 > 1) && decide (h > 20))) := by
  cases h : interpAt thr sm.1 <;> simp [fbStep, fbStepB, h]

/-- Folding the source's step over the altitude samples equals folding the
classified step over the classification list. -/
lemma foldl_fbStep_flyList (thr : List (ℚ × ℚ)) :
    ∀ (alt : List (ℚ × ℚ)) (st : FBState),
      alt.foldl (fbStep thr) st = (flyList alt thr).foldl fbStepB st := by
  intro alt
  induction alt with
  | nil => intro st; simp [flyList]
  | cons sm rest ih =>
    intro st
    have hstep := fbStep_eq thr st sm
    cases h : interpAt thr sm.1 with
    | none =>
      have h1 : fbStep thr st sm = st := by rw [hstep, h]
      have h2 : flyList (sm :: rest) thr = flyList rest thr := by
        simp [flyList, List.filterMap_cons, h]
      rw [List.foldl_cons, h1, h2, ih st]
    | some v =>
      have h1 : fbStep thr st sm
          = fbStepB st (sm.1, decide (sm.2 > 1) && decide (v > 20)) := by
        rw [hstep, h]
      have h2 : flyList (sm :: rest) thr
          = (sm.1, decide (sm.2 > 1) && decide (v > 20)) :: flyList rest thr := by
        simp [flyList, List.filterMap_cons, h]
      rw [List.foldl_cons, h1, h2, List.foldl_cons, ih]

lemma sumFlights_cons (t1 : ℚ) (x : String) (E : List (ℚ × String)) :
    sumFlights ((t1, x) :: E) = sumOpen t1 E := by
  cases E with
  | nil => rfl
  | cons e r => obtain ⟨t2, y⟩ := e; rfl

lemma countTakeoffs_takeoff (t : ℚ) (E : List (ℚ × String)) :
    countTakeoffs ((t, "takeoff") :: E) = countTakeoffs E + 1 := by
  simp +decide [countTakeoffs]

lemma countTakeoffs_landing (t : ℚ) (E : List (ℚ × String)) :
    countTakeoffs ((t, "landing") :: E) = countTakeoffs E := by
  simp +decide [countTakeoffs]

lemma foldl_fbStepB_evts :
    ∀ (l : List (ℚ × Bool)) (st : FBState),
      (l.foldl fbStepB st).evts = st.evts ++ edgeEvents st.flying l := by
  intro l
  induction l with
  | nil => intro st; simp [edgeEvents]
  | cons sm rest ih =>
    intro st
    obtain ⟨t, b⟩ := sm
    cases b <;> cases hf : st.flying <;>
      simp [fbStepB, edgeEvents, hf, ih]

lemma foldl_fbStepB_n :
    ∀ (l : List (ℚ × Bool)) (st : FBState),
      (l.foldl fbStepB st).nflights = st.nflights + countTakeoffs (edgeEvents st.flying l) := by
  intro l
  induction l with
  | nil => intro st; simp [edgeEvents, countTakeoffs]
  | cons sm rest ih =>
    intro st
    obtain ⟨t, b⟩ := sm
    cases b <;> cases hf : st.flying <;>
      simp [fbStepB, edgeEvents, hf, ih, countTakeoffs_takeoff, countTakeoffs_landing] <;>
      omega

lemma foldl_fbStepB_ftime :
    ∀ (l : List (ℚ × Bool)) (st : FBState),
      (l.foldl fbStepB st).flighttime
        = st.flighttime + (if st.flying then sumOpen st.t_takeoff (edgeEvents true l)
                           else sumFlights (edgeEvents false l)) := by
  intro l
  induction l with
  | nil => intro st; cases hf : st.flying <;> simp [edgeEvents, sumOpen, sumFlights, hf]
  | cons sm rest ih =>
    intro st
    obtain ⟨t, b⟩ := sm
    cases b <;> cases hf : st.flying <;>
      simp [fbStepB, edgeEvents, hf, ih, sumFlights_cons, sumOpen] <;>
      ring

/-- Claim C6: with altitude (`airstate/alt GND`) and throttle
(`airstate/throttle`) series of equal epoch baselines, the flight-book pass
walks the altitude samples in order, interpolates throttle at each altitude
timestamp, classifies flying as `altitude > 1 ∧ throttle > 20`, and records
takeoff events at false-to-true edges, landing events at true-to-false
edges, the flight count and the summed flight duration; on altitude
`[0,0,5,5,0,0]` and throttle `[0,0,50,50,0,0]` at times `[0..5]` it yields
one flight, takeoff at `t = 2`, landing at `t = 4`, flight time `2` s, and
first-takeoff/last-landing parameters `2` and `4`. -/
theorem flightbook_edges_and_scenario :
    (∀ (s : Store) (alt thr : List (ℚ × ℚ)) (e : Int),
      requireTS s "airstate/alt GND" = some (alt, e) →
      requireTS s "airstate/throttle" = some (thr, e) →
      (evtSamples (postprocess_flightbook s) "flightbook/takeoff_landing"
          = edgeEvents false (flyList alt thr)
       ∧ pNVals (postprocess_flightbook s) "flightbook/number flights"
          = [countTakeoffs (edgeEvents false (flyList alt thr))]
       ∧ pQVals (postprocess_flightbook s) "flightbook/total flight time"
          = [sumFlights (edgeEvents false (flyList alt thr))]))
    ∧ evtSamples (postprocess_flightbook fbScenarioStore) "flightbook/takeoff_landing"
        = [(2, "takeoff"), (4, "landing")]
    ∧ pNVals (postprocess_flightbook fbScenarioStore) "flightbook/number flights" = [1]
    ∧ pQVals (postprocess_flightbook fbScenarioStore) "flightbook/total flight time" = [2]
    ∧ pQVals (postprocess_flightbook fbScenarioStore) "flightbook/first takeoff" = [2]
    ∧ pQVals (postprocess_flightbook fbScenarioStore) "flightbook/last landing" = [4] := by
  constructor
  · intro s alt thr e h1 h2
    have hcore : postprocess_flightbook s = flightbookCore s alt thr e := by
      simp [postprocess_flightbook, h1, h2]
    rw [hcore]
    simp only [flightbookCore, foldl_fbStep_flyList]
    refine ⟨?_, ?_, ?_⟩
    · simp [evtSamples, lookupUnit_setUnit_ne _ _ _ _ (by decide : ("flightbook/takeoff_landing" : String) ≠ "flightbook/last landing"),
          lookupUnit_setUnit_ne _ _ _ _ (by decide : ("flightbook/takeoff_landing" : String) ≠ "flightbook/first takeoff"),
          lookupUnit_setUnit_ne _ _ _ _ (by decide : ("flightbook/takeoff_landing" : String) ≠ "flightbook/total flight time"),
          lookupUnit_setUnit_ne _ _ _ _ (by decide : ("flightbook/takeoff_landing" : String) ≠ "flightbook/number flights"),
          lookupUnit_setUnit_self, foldl_fbStepB_evts, fbInit]
    · simp [pNVals, lookupUnit_setUnit_ne _ _ _ _ (by decide : ("flightbook/number flights" : String) ≠ "flightbook/last landing"),
        lookupUnit_setUnit_ne _ _ _ _ (by decide : ("flightbook/number flights" : String) ≠ "flightbook/first takeoff"),
        lookupUnit_setUnit_ne _ _ _ _ (by decide : ("flightbook/number flights" : String) ≠ "flightbook/total flight time"),
        lookupUnit_setUnit_self, foldl_fbStepB_n, fbInit]
    · simp [pQVals, lookupUnit_setUnit_ne _ _ _ _ (by decide : ("flightbook/total flight time" : String) ≠ "flightbook/last landing"),
        lookupUnit_setUnit_ne _ _ _ _ (by decide : ("flightbook/total flight time" : String) ≠ "flightbook/first takeoff"),
        lookupUnit_setUnit_self, foldl_fbStepB_ftime, fbInit]
  · refine ⟨?_, ?_, ?_, ?_, ?_⟩ <;>
    norm_num +decide [postprocess_flightbook, fbScenarioStore, requireTS, lookupUnit,
      flightbookCore, getOrCreate, freshUnit, setUnit, fbStep, fbInit, interpAt, interpGo,
      evtSamples, pNVals, pQVals, DVal.kind, List.foldl]

/-- Witness for C6: the scenario store satisfies the hypotheses (both series
present with equal epoch baselines), and the recorded events are the edge
events of the classification. -/
theorem flightbook_edges_and_scenario_witness :
    requireTS fbScenarioStore "airstate/alt GND"
      = some ([(0, 0), (1, 0), (2, 5), (3, 5), (4, 0), (5, 0)], 0)
    ∧ requireTS fbScenarioStore "airstate/throttle"
      = some ([(0, 0), (1, 0), (2, 50), (3, 50), (4, 0), (5, 0)], 0)
    ∧ evtSamples (postprocess_flightbook fbScenarioStore) "flightbook/takeoff_landing"
        = edgeEvents false (flyList [(0, 0), (1, 0), (2, 5), (3, 5), (4, 0), (5, 0)]
            [(0, 0), (1, 0), (2, 50), (3, 50), (4, 0), (5, 0)]) := by
  refine ⟨by decide, by decide, ?_⟩
  exact ((flightbook_edges_and_scenario).1 fbScenarioStore
    [(0, 0), (1, 0), (2, 5), (3, 5), (4, 0), (5, 0)]
    [(0, 0), (1, 0), (2, 50), (3, 50), (4, 0), (5, 0)] 0 (by decide) (by decide)).1

/-! ## Power-statistics refinement lemmas -/

lemma trapGo_steps :
    ∀ (l : List (ℚ × ℚ)) (ta fa acc : ℚ),
      (trapGo ta fa acc l).1
        = (((ta, fa) :: l).zip l).map
            (fun pr => (pr.2.1, (pr.2.1 - pr.1.1) * (pr.1.2 + pr.2.2) / 2)) := by
  intro l
  induction l with
  | nil => intro ta fa acc; simp [trapGo]
  | cons x rest ih =>
    intro ta fa acc
    obtain ⟨tb, fb⟩ := x
    simp [trapGo, ih, List.zip_cons_cons]

lemma trapLoop_steps (x : ℚ × ℚ) (rest : List (ℚ × ℚ)) :
    (trapLoop (x :: rest)).1 = (x.1, 0) :: consecTrapezoids (x :: rest) := by
  obtain ⟨t0, f0⟩ := x
  simp [trapLoop, trapGo_steps, consecTrapezoids]

lemma trapGo_cums :
    ∀ (l : List (ℚ × ℚ)) (ta fa acc : ℚ),
      (trapGo ta fa acc l).2.map Prod.snd
          = (prefixSums acc ((trapGo ta fa acc l).1.map Prod.snd)).map (fun v => v / 3600)
        ∧ (trapGo ta fa acc l).2.map Prod.fst = (trapGo ta fa acc l).1.map Prod.fst := by
  intro l
  induction l with
  | nil => intro ta fa acc; simp [trapGo, prefixSums]
  | cons x rest ih =>
    intro ta fa acc
    obtain ⟨tb, fb⟩ := x
    have h := ih tb fb (acc + (tb - ta) * (fa + fb) / 2)
    simp [trapGo, prefixSums, h.1, h.2]

lemma trapLoop_cums (l : List (ℚ × ℚ)) :
    (trapLoop l).2.map Prod.snd
        = (prefixSums 0 ((trapLoop l).1.map Prod.snd)).map (fun v => v / 3600)
      ∧ (trapLoop l).2.map Prod.fst = (trapLoop l).1.map Prod.fst := by
  cases l with
  | nil => simp [trapLoop, prefixSums]
  | cons x rest =>
    obtain ⟨t0, f0⟩ := x
    have h := trapGo_cums rest t0 f0 0
    simp [trapLoop, prefixSums, h.1, h.2]

/-- Claim C7: with voltage and current series of equal epoch baselines, the
power-statistics pass computes instantaneous power as voltage times
interpolated current at each voltage timestamp, per-step charge and
consumption as the trapezoid between consecutive samples, and cumulative
values as the running sums divided by 3600 (A·s → Ah, W·s → Wh); constant
12 V and 2 A over samples at `t = 0` and `t = 10` yield cumulative charge
`2·10/3600` Ah and cumulative consumption `24·10/3600` Wh. -/
theorem powerstats_trapezoid_and_scenario :
    (∀ (s : Store) (volt amps : List (ℚ × ℚ)) (e : Int),
      requireTS s "power/battery_voltage" = some (volt, e) →
      requireTS s "power/battery_current" = some (amps, e) →
      (tsSamples (postprocess_powerstats s) "power/power" = powerList volt amps
       ∧ (∀ x rest, amps = x :: rest →
           tsSamples (postprocess_powerstats s) "power/inst. charge"
             = (x.1, 0) :: consecTrapezoids amps)
       ∧ (tsSamples (postprocess_powerstats s) "power/cum. charge").map Prod.snd
           = (prefixSums 0 ((tsSamples (postprocess_powerstats s) "power/inst. charge").map
               Prod.snd)).map (fun v => v / 3600)
       ∧ (∀ x rest, powerList volt amps = x :: rest →
           tsSamples (postprocess_powerstats s) "power/inst. consumption"
             = (x.1, 0) :: consecTrapezoids (powerList volt amps))
       ∧ (tsSamples (postprocess_powerstats s) "power/cum. consumption").map Prod.snd
           = (prefixSums 0 ((tsSamples (postprocess_powerstats s) "power/inst. consumption").map
               Prod.snd)).map (fun v => v / 3600)))
    ∧ tsSamples (postprocess_powerstats psScenarioStore) "power/power" = [(0, 24), (10, 24)]
    ∧ tsSamples (postprocess_powerstats psScenarioStore) "power/cum. charge"
        = [(0, 0), (10, 2 * 10 / 3600)]
    ∧ tsSamples (postprocess_powerstats psScenarioStore) "power/cum. consumption"
        = [(0, 0), (10, 24 * 10 / 3600)] := by
  constructor
  · intro s volt amps e h1 h2
    have hcore : postprocess_powerstats s = powerstatsCore s volt amps e := by
      simp [postprocess_powerstats, h1, h2]
    rw [hcore]
    have hpow : tsSamples (powerstatsCore s volt amps e) "power/power" = powerList volt amps := by
      simp [powerstatsCore, tsSamples,
        lookupUnit_setUnit_ne _ _ _ _ (by decide : ("power/power" : String) ≠ "power/cum. charge"),
        lookupUnit_setUnit_ne _ _ _ _ (by decide : ("power/power" : String) ≠ "power/cum. consumption"),
        lookupUnit_setUnit_ne _ _ _ _ (by decide : ("power/power" : String) ≠ "power/inst. charge"),
        lookupUnit_setUnit_ne _ _ _ _ (by decide : ("power/power" : String) ≠ "power/inst. consumption"),
        lookupUnit_setUnit_self]
    have hchs : tsSamples (powerstatsCore s volt amps e) "power/inst. charge"
        = (trapLoop amps).1 := by
      simp [powerstatsCore, tsSamples,
        lookupUnit_setUnit_ne _ _ _ _ (by decide : ("power/inst. charge" : String) ≠ "power/cum. charge"),
        lookupUnit_setUnit_ne _ _ _ _ (by decide : ("power/inst. charge" : String) ≠ "power/cum. consumption"),
        lookupUnit_setUnit_self]
    have hchc : tsSamples (powerstatsCore s volt amps e) "power/cum. charge"
        = (trapLoop amps).2 := by
      simp [powerstatsCore, tsSamples, lookupUnit_setUnit_self]
    have hcos : tsSamples (powerstatsCore s volt amps e) "power/inst. consumption"
        = (trapLoop (powerList volt amps)).1 := by
      simp [powerstatsCore, tsSamples,
        lookupUnit_setUnit_ne _ _ _ _ (by decide : ("power/inst. consumption" : String) ≠ "power/cum. charge"),
        lookupUnit_setUnit_ne _ _ _ _ (by decide : ("power/inst. consumption" : String) ≠ "power/cum. consumption"),
        lookupUnit_setUnit_ne _ _ _ _ (by decide : ("power/inst. consumption" : String) ≠ "power/inst. charge"),
        lookupUnit_setUnit_self]
    have hcoc : tsSamples (powerstatsCore s volt amps e) "power/cum. consumption"
        = (trapLoop (powerList volt amps)).2 := by
      simp [powerstatsCore, tsSamples,
        lookupUnit_setUnit_ne _ _ _ _ (by decide : ("power/cum. consumption" : String) ≠ "power/cum. charge"),
        lookupUnit_setUnit_self]
    refine ⟨hpow, ?_, ?_, ?_, ?_⟩
    · intro x rest hx
      rw [hchs, hx, trapLoop_steps, ← hx]
    · rw [hchs, hchc]
      exact (trapLoop_cums amps).1
    · intro x rest hx
      rw [hcos, hx, trapLoop_steps, ← hx]
    · rw [hcos, hcoc]
      exact (trapLoop_cums (powerList volt amps)).1
  · refine ⟨?_, ?_, ?_⟩ <;>
    norm_num +decide [postprocess_powerstats, psScenarioStore, requireTS, lookupUnit,
      powerstatsCore, getOrCreate, freshUnit, setUnit, powerList, interpAt, interpGo,
      trapLoop, trapGo, tsSamples, DVal.kind, List.filterMap]

/-- Witness for C7: the scenario store satisfies the hypotheses, and its
cumulative charge values are the prefix sums of the per-step trapezoids
divided by 3600. -/
theorem powerstats_trapezoid_and_scenario_witness :
    requireTS psScenarioStore "power/battery_voltage" = some ([(0, 12), (10, 12)], 0)
    ∧ requireTS psScenarioStore "power/battery_current" = some ([(0, 2), (10, 2)], 0)
    ∧ (tsSamples (postprocess_powerstats psScenarioStore) "power/cum. charge").map Prod.snd
        = (prefixSums 0 ((tsSamples (postprocess_powerstats psScenarioStore)
            "power/inst. charge").map Prod.snd)).map (fun v => v / 3600) := by
  refine ⟨by decide, by decide, ?_⟩
  exact ((powerstats_trapezoid_and_scenario).1 psScenarioStore [(0, 12), (10, 12)]
    [(0, 2), (10, 2)] 0 (by decide) (by decide)).2.2.1

/-! ## Pipeline idempotence (C5) -/

lemma setUnit_lookup_eq (s : Store) (p : String) (u : DUnit)
    (h : lookupUnit s p = some u) : setUnit s p u = s := by
  induction s with
  | nil => simp [lookupUnit] at h
  | cons e rest ih =>
    obtain ⟨q, v⟩ := e
    by_cases hq : q = p
    · subst hq
      simp [lookupUnit] at h
      simp [setUnit, h]
    · simp [lookupUnit, hq] at h
      simp [setUnit, hq, ih h]

/-- Counterexample for C5 as stated: on a store holding only the position
series `PN`, `PE`, `PD`, the first `postprocess()` creates the derived unit
`glideperf/cum. horz. dist.` with one sample, and a second run — with no new
raw input — appends a duplicate sample instead of being the identity,
because `_postprocess_glideperf_pos` never clears its output. -/
theorem postprocess_not_idempotent_glidepos :
    ((lookupUnit (postprocess glidePosStore) "glideperf/cum. horz. dist.").map
        DUnit.derived) = some true
    ∧ (tsSamples (postprocess glidePosStore) "glideperf/cum. horz. dist.").length = 1
    ∧ (tsSamples (postprocess (postprocess glidePosStore))
        "glideperf/cum. horz. dist.").length = 2
    ∧ postprocess (postprocess glidePosStore) ≠ postprocess glidePosStore := by
  have h1 : ((lookupUnit (postprocess glidePosStore) "glideperf/cum. horz. dist.").map
      DUnit.derived) = some true := by
    norm_num +decide [postprocess, postprocess_bad_timing, postprocess_flightbook,
      postprocess_powerstats, postprocess_glideperf_pos, postprocess_glideperf_vel,
      glidePosStore, requireTS, lookupUnit, findPatTS, wordIn, substrIn, splitWords,
      initialRun, containsRun, getOrCreate, freshUnit, setUnit, glidePosLoop, interpAt,
      interpGo, tsSamples, DVal.kind, DVal.isTimed, DUnit.tsOf, List.foldl, String.data]
  have h2 : (tsSamples (postprocess glidePosStore) "glideperf/cum. horz. dist.").length
      = 1 := by
    norm_num +decide [postprocess, postprocess_bad_timing, postprocess_flightbook,
      postprocess_powerstats, postprocess_glideperf_pos, postprocess_glideperf_vel,
      glidePosStore, requireTS, lookupUnit, findPatTS, wordIn, substrIn, splitWords,
      initialRun, containsRun, getOrCreate, freshUnit, setUnit, glidePosLoop, interpAt,
      interpGo, tsSamples, DVal.kind, DVal.isTimed, DUnit.tsOf, List.foldl, String.data]
  have h3 : (tsSamples (postprocess (postprocess glidePosStore))
      "glideperf/cum. horz. dist.").length = 2 := by
    norm_num +decide [postprocess, postprocess_bad_timing, postprocess_flightbook,
      postprocess_powerstats, postprocess_glideperf_pos, postprocess_glideperf_vel,
      glidePosStore, requireTS, lookupUnit, findPatTS, wordIn, substrIn, splitWords,
      initialRun, containsRun, getOrCreate, freshUnit, setUnit, glidePosLoop, interpAt,
      interpGo, tsSamples, DVal.kind, DVal.isTimed, DUnit.tsOf, List.foldl, String.data]
  refine ⟨h1, h2, h3, ?_⟩
  intro heq
  rw [heq] at h3
  rw [h2] at h3
  exact absurd h3 (by norm_num)

lemma lookupUnit_flightbookCore_ne (s : Store) (a t : List (ℚ × ℚ)) (e : Int) (p : String)
    (n1 : p ≠ "flightbook/takeoff_landing") (n2 : p ≠ "flightbook/number flights")
    (n3 : p ≠ "flightbook/total flight time") (n4 : p ≠ "flightbook/first takeoff")
    (n5 : p ≠ "flightbook/last landing") :
    lookupUnit (flightbookCore s a t e) p = lookupUnit s p := by
  simp [flightbookCore,
    lookupUnit_setUnit_ne _ _ _ _ n1, lookupUnit_setUnit_ne _ _ _ _ n2,
    lookupUnit_setUnit_ne _ _ _ _ n3, lookupUnit_setUnit_ne _ _ _ _ n4,
    lookupUnit_setUnit_ne _ _ _ _ n5,
    lookupUnit_getOrCreate_snd_ne _ _ _ _ n1, lookupUnit_getOrCreate_snd_ne _ _ _ _ n2,
    lookupUnit_getOrCreate_snd_ne _ _ _ _ n3, lookupUnit_getOrCreate_snd_ne _ _ _ _ n4,
    lookupUnit_getOrCreate_snd_ne _ _ _ _ n5]

set_option maxHeartbeats 2000000 in
lemma flightbookCore_idem (s : Store) (a t : List (ℚ × ℚ)) (e : Int) :
    flightbookCore (flightbookCore s a t e) a t e = flightbookCore s a t e := by
  simp only [flightbookCore]
  simp +decide [getOrCreate, lookupUnit_setUnit_self, lookupUnit_setUnit_ne, DVal.kind,
    setUnit_lookup_eq]

/-- Claim C5 (amended): the flight-book pass, which clears its derived
outputs before recomputing them from the unchanged altitude and throttle
inputs, is idempotent — running it twice with no new raw input equals
running it once for every store; the full pipeline as stated in the claim is
not, because the position-based glide-performance pass appends to its
output without clearing it (see the counterexample). -/
theorem flightbook_pass_idempotent (s : Store) :
    postprocess_flightbook (postprocess_flightbook s) = postprocess_flightbook s := by
  cases h1 : requireTS s "airstate/alt GND" with
  | none =>
    have hfb : postprocess_flightbook s = s := by
      simp [postprocess_flightbook, h1]
    rw [hfb]
    exact hfb
  | some altP =>
    cases h2 : requireTS s "airstate/throttle" with
    | none =>
      have hfb : postprocess_flightbook s = s := by
        simp [postprocess_flightbook, h1, h2]
      rw [hfb]
      exact hfb
    | some thrP =>
      by_cases he : altP.2 = thrP.2
      · have hfb : postprocess_flightbook s = flightbookCore s altP.1 thrP.1 altP.2 := by
          simp [postprocess_flightbook, h1, h2, he]
        have h1' : requireTS (flightbookCore s altP.1 thrP.1 altP.2) "airstate/alt GND"
            = some altP := by
          rw [← h1]
          simp [requireTS, lookupUnit_flightbookCore_ne s altP.1 thrP.1 altP.2
            "airstate/alt GND" (by decide) (by decide) (by decide) (by decide) (by decide)]
        have h2' : requireTS (flightbookCore s altP.1 thrP.1 altP.2) "airstate/throttle"
            = some thrP := by
          rw [← h2]
          simp [requireTS, lookupUnit_flightbookCore_ne s altP.1 thrP.1 altP.2
            "airstate/throttle" (by decide) (by decide) (by decide) (by decide) (by decide)]
        have hfb2 : postprocess_flightbook (flightbookCore s altP.1 thrP.1 altP.2)
            = flightbookCore (flightbookCore s altP.1 thrP.1 altP.2) altP.1 thrP.1
                altP.2 := by
          simp only [postprocess_flightbook, h1', h2']
          rw [if_neg (by simp [he])]
        rw [hfb, hfb2, flightbookCore_idem]
      · have hfb : postprocess_flightbook s = s := by
          simp [postprocess_flightbook, h1, h2, he]
        rw [hfb]
        exact hfb

/-! ## Hierarchy-store lemmas (C4) -/

lemma pathsL_cons (p : String) (g : GTree) (rest : List (String × GTree)) :
    pathsL ((p, g) :: rest) = (GTree.paths g).map (fun q => p :: q) ++ pathsL rest := by
  cases g with
  | node gs2 ds2 =>
    simp [pathsL, GTree.paths, List.map_append, List.map_map, List.append_assoc]

lemma mem_pathsL_head :
    ∀ (gs : List (String × GTree)) (x : String) (r : List String),
      (x :: r) ∈ pathsL gs → x ∈ keysG gs := by
  intro gs
  induction gs with
  | nil => intro x r h; simp [pathsL] at h
  | cons e rest ih =>
    intro x r h
    obtain ⟨p, g⟩ := e
    rw [pathsL_cons] at h
    rcases List.mem_append.mp h with h1 | h2
    · obtain ⟨q, _, hq⟩ := List.mem_map.mp h1
      simp [keysG, ← (List.cons_eq_cons.mp hq).1]
    · simp [keysG]
      right
      have := ih x r h2
      simpa [keysG] using this

lemma mem_pathsL_ne_nil :
    ∀ (gs : List (String × GTree)) (q : List String), q ∈ pathsL gs → q ≠ [] := by
  intro gs
  induction gs with
  | nil => intro q h; simp [pathsL] at h
  | cons e rest ih =>
    intro q h
    obtain ⟨p, g⟩ := e
    rw [pathsL_cons] at h
    rcases List.mem_append.mp h with h1 | h2
    · obtain ⟨q', _, hq⟩ := List.mem_map.mp h1
      exact hq ▸ List.cons_ne_nil _ _
    · exact ih q h2

lemma lookupG_eq_none_iff (gs : List (String × GTree)) (p : String) :
    lookupG gs p = none ↔ p ∉ keysG gs := by
  induction gs with
  | nil => simp [lookupG, keysG]
  | cons e rest ih =>
    obtain ⟨q, g⟩ := e
    by_cases hq : q = p
    · subst hq; simp [lookupG, keysG]
    · simp [lookupG, hq, keysG, ih, Ne.symm hq]

lemma lookupG_mem :
    ∀ (gs : List (String × GTree)) (p : String) (g : GTree),
      lookupG gs p = some g → (p, g) ∈ gs := by
  intro gs
  induction gs with
  | nil => intro p g h; simp [lookupG] at h
  | cons e rest ih =>
    intro p g h
    obtain ⟨q, v⟩ := e
    by_cases hq : q = p
    · subst hq
      simp [lookupG] at h
      simp [h]
    · simp only [lookupG, if_neg hq] at h
      exact List.mem_cons_of_mem _ (ih p g h)

lemma not_mem_pathsL_of_lookup_none (gs : List (String × GTree)) (p : String)
    (r : List String) (hl : lookupG gs p = none) : (p :: r) ∉ pathsL gs := by
  intro h
  exact (lookupG_eq_none_iff gs p).mp hl (mem_pathsL_head gs p r h)

lemma mem_pathsL_cons_iff :
    ∀ (gs : List (String × GTree)) (p : String) (g : GTree) (r : List String),
      nodupB (keysG gs) = true → lookupG gs p = some g →
      ((p :: r) ∈ pathsL gs ↔ r ∈ GTree.paths g) := by
  intro gs
  induction gs with
  | nil => intro p g r _ hl; simp [lookupG] at hl
  | cons e rest ih =>
    intro p g r hk hl
    obtain ⟨q, v⟩ := e
    rw [pathsL_cons]
    have hk0 : q ∉ keysG rest ∧ nodupB (keysG rest) = true := by
      have : keysG ((q, v) :: rest) = q :: keysG rest := rfl
      rw [this, nodupB] at hk
      exact ⟨of_decide_eq_true (Bool.and_elim_left hk), Bool.and_elim_right hk⟩
    by_cases hq : q = p
    · subst hq
      simp only [lookupG, if_pos rfl] at hl
      obtain rfl : v = g := by simpa using hl
      constructor
      · intro h
        rcases List.mem_append.mp h with h1 | h2
        · obtain ⟨q', hq', he⟩ := List.mem_map.mp h1
          obtain ⟨-, rfl⟩ := List.cons_eq_cons.mp he
          exact hq'
        · exact absurd (mem_pathsL_head rest q r h2) hk0.1
      · intro h
        exact List.mem_append.mpr (Or.inl (List.mem_map.mpr ⟨r, h, rfl⟩))
    · simp only [lookupG, if_neg hq] at hl
      have hih := ih p g r hk0.2 hl
      constructor
      · intro h
        rcases List.mem_append.mp h with h1 | h2
        · obtain ⟨q', _, he⟩ := List.mem_map.mp h1
          exact absurd (List.cons_eq_cons.mp he).1 hq
        · exact hih.mp h2
      · intro h
        exact List.mem_append.mpr (Or.inr (hih.mpr h))

lemma setG_cons_self (q : String) (v g' : GTree) (rest : List (String × GTree)) :
    setG ((q, v) :: rest) q g' = (q, g') :: rest := by
  simp [setG]

lemma setG_cons_ne (q p : String) (v g' : GTree) (rest : List (String × GTree))
    (h : q ≠ p) : setG ((q, v) :: rest) p g' = (q, v) :: setG rest p g' := by
  simp [setG, h]

lemma removeG_cons_self (q : String) (v : GTree) (rest : List (String × GTree)) :
    removeG ((q, v) :: rest) q = rest := by
  simp [removeG]

lemma removeG_cons_ne (q p : String) (v : GTree) (rest : List (String × GTree))
    (h : q ≠ p) : removeG ((q, v) :: rest) p = (q, v) :: removeG rest p := by
  simp [removeG, h]

lemma keysG_setG :
    ∀ (gs : List (String × GTree)) (p : String) (g' : GTree),
      keysG (setG gs p g') = keysG gs := by
  intro gs
  induction gs with
  | nil => intro p g'; simp [setG]
  | cons e rest ih =>
    intro p g'
    obtain ⟨q, v⟩ := e
    by_cases hq : q = p <;> simp [setG, hq, keysG] <;> simpa [keysG] using ih p g'

lemma lookupG_setG_self :
    ∀ (gs : List (String × GTree)) (p : String) (g g' : GTree),
      lookupG gs p = some g → lookupG (setG gs p g') p = some g' := by
  intro gs
  induction gs with
  | nil => intro p g g' h; simp [lookupG] at h
  | cons e rest ih =>
    intro p g g' h
    obtain ⟨q, v⟩ := e
    by_cases hq : q = p
    · subst hq; simp [setG, lookupG]
    · simp only [lookupG, if_neg hq] at h
      simp [setG, lookupG, hq, ih p g g' h]

lemma mem_pathsL_setG :
    ∀ (gs : List (String × GTree)) (p : String) (g0 g' : GTree) (x : String)
      (r : List String),
      nodupB (keysG gs) = true → lookupG gs p = some g0 →
      ((x :: r) ∈ pathsL (setG gs p g') ↔
        (if x = p then r ∈ GTree.paths g' else (x :: r) ∈ pathsL gs)) := by
  intro gs
  induction gs with
  | nil => intro p g0 g' x r _ hl; simp [lookupG] at hl
  | cons e rest ih =>
    intro p g0 g' x r hk hl
    obtain ⟨q, v⟩ := e
    have hk0 : q ∉ keysG rest ∧ nodupB (keysG rest) = true := by
      have : keysG ((q, v) :: rest) = q :: keysG rest := rfl
      rw [this, nodupB] at hk
      exact ⟨of_decide_eq_true (Bool.and_elim_left hk), Bool.and_elim_right hk⟩
    by_cases hq : q = p
    · subst hq
      simp only [lookupG, if_pos rfl] at hl
      obtain rfl : v = g0 := by simpa using hl
      rw [setG_cons_self]
      simp only [pathsL_cons]
      by_cases hx : x = q
      · subst hx
        simp only [if_pos rfl]
        constructor
        · intro h
          rcases List.mem_append.mp h with h1 | h2
          · obtain ⟨q', hq', he⟩ := List.mem_map.mp h1
            obtain ⟨-, rfl⟩ := List.cons_eq_cons.mp he
            exact hq'
          · exact absurd (mem_pathsL_head rest x r h2) hk0.1
        · intro h
          exact List.mem_append.mpr (Or.inl (List.mem_map.mpr ⟨r, h, rfl⟩))
      · simp only [if_neg hx]
        constructor
        · intro h
          rcases List.mem_append.mp h with h1 | h2
          · obtain ⟨q', _, he⟩ := List.mem_map.mp h1
            exact absurd (List.cons_eq_cons.mp he).1.symm hx
          · exact List.mem_append.mpr (Or.inr h2)
        · intro h
          rcases List.mem_append.mp h with h1 | h2
          · obtain ⟨q', _, he⟩ := List.mem_map.mp h1
            exact absurd (List.cons_eq_cons.mp he).1.symm hx
          · exact List.mem_append.mpr (Or.inr h2)
    · simp only [lookupG, if_neg hq] at hl
      rw [setG_cons_ne _ _ _ _ _ hq]
      simp only [pathsL_cons]
      have hih := ih p g0 g' x r hk0.2 hl
      by_cases hx : x = p
      · subst hx
        simp only [if_pos rfl] at hih ⊢
        constructor
        · intro h
          rcases List.mem_append.mp h with h1 | h2
          · obtain ⟨q', _, he⟩ := List.mem_map.mp h1
            exact absurd (List.cons_eq_cons.mp he).1 hq
          · exact hih.mp h2
        · intro h
          exact List.mem_append.mpr (Or.inr (hih.mpr h))
      · simp only [if_neg hx] at hih ⊢
        constructor
        · intro h
          rcases List.mem_append.mp h with h1 | h2
          · exact List.mem_append.mpr (Or.inl h1)
          · exact List.mem_append.mpr (Or.inr (hih.mp h2))
        · intro h
          rcases List.mem_append.mp h with h1 | h2
          · exact List.mem_append.mpr (Or.inl h1)
          · exact List.mem_append.mpr (Or.inr (hih.mpr h2))

lemma pathsL_append_one (gs : List (String × GTree)) (p : String) (g : GTree) :
    pathsL (gs ++ [(p, g)]) = pathsL gs ++ (GTree.paths g).map (fun q => p :: q) := by
  induction gs with
  | nil => simp [pathsL, pathsL_cons]
  | cons e rest ih =>
    obtain ⟨q, v⟩ := e
    rw [List.cons_append, pathsL_cons, pathsL_cons, ih, List.append_assoc]

lemma keysG_removeG_subset :
    ∀ (gs : List (String × GTree)) (p x : String),
      x ∈ keysG (removeG gs p) → x ∈ keysG gs := by
  intro gs
  induction gs with
  | nil => intro p x h; simp [removeG, keysG] at h
  | cons e rest ih =>
    intro p x h
    obtain ⟨q, v⟩ := e
    by_cases hq : q = p
    · subst hq
      simp only [removeG, if_pos rfl] at h
      exact List.mem_cons_of_mem _ (by simpa [keysG] using h)
    · simp only [removeG, if_neg hq] at h
      have : keysG ((q, v) :: removeG rest p) = q :: keysG (removeG rest p) := rfl
      rw [this] at h
      rcases List.mem_cons.mp h with h1 | h2
      · simp [keysG, h1]
      · exact List.mem_cons_of_mem _ (ih p x h2)

lemma mem_pathsL_removeG :
    ∀ (gs : List (String × GTree)) (p x : String) (r : List String),
      nodupB (keysG gs) = true →
      ((x :: r) ∈ pathsL (removeG gs p) ↔ x ≠ p ∧ (x :: r) ∈ pathsL gs) := by
  intro gs
  induction gs with
  | nil => intro p x r _; simp [removeG, pathsL]
  | cons e rest ih =>
    intro p x r hk
    obtain ⟨q, v⟩ := e
    have hk0 : q ∉ keysG rest ∧ nodupB (keysG rest) = true := by
      have : keysG ((q, v) :: rest) = q :: keysG rest := rfl
      rw [this, nodupB] at hk
      exact ⟨of_decide_eq_true (Bool.and_elim_left hk), Bool.and_elim_right hk⟩
    by_cases hq : q = p
    · subst hq
      rw [removeG_cons_self, pathsL_cons]
      constructor
      · intro h
        refine ⟨?_, List.mem_append.mpr (Or.inr h)⟩
        intro hx
        subst hx
        exact hk0.1 (mem_pathsL_head rest x r h)
      · rintro ⟨hx, h⟩
        rcases List.mem_append.mp h with h1 | h2
        · obtain ⟨q', _, he⟩ := List.mem_map.mp h1
          exact absurd (List.cons_eq_cons.mp he).1.symm hx
        · exact h2
    · rw [removeG_cons_ne _ _ _ _ hq]
      simp only [pathsL_cons]
      have hih := ih p x r hk0.2
      constructor
      · intro h
        rcases List.mem_append.mp h with h1 | h2
        · obtain ⟨q', hq', he⟩ := List.mem_map.mp h1
          obtain ⟨rfl, rfl⟩ := List.cons_eq_cons.mp he
          exact ⟨fun hc => hq hc, List.mem_append.mpr (Or.inl h1)⟩
        · exact ⟨(hih.mp h2).1, List.mem_append.mpr (Or.inr (hih.mp h2).2)⟩
      · rintro ⟨hx, h⟩
        rcases List.mem_append.mp h with h1 | h2
        · exact List.mem_append.mpr (Or.inl h1)
        · exact List.mem_append.mpr (Or.inr (hih.mpr ⟨hx, h2⟩))

lemma wfT_parts (gs : List (String × GTree)) (ds : List String) :
    wfT (GTree.node gs ds) = true ↔
      nodupB ds = true ∧ nodupB (keysG gs) = true ∧ wfL gs = true := by
  simp [wfT, Bool.and_eq_true, and_assoc]

lemma wfL_cons_parts (p : String) (g : GTree) (rest : List (String × GTree)) :
    wfL ((p, g) :: rest) = true ↔
      wfT g = true ∧ g.isEmptyG = false ∧ wfL rest = true := by
  cases g with
  | node gs2 ds2 =>
    simp [wfL, wfT, GTree.isEmptyG, Bool.and_eq_true]
    tauto

lemma wfL_mem :
    ∀ (gs : List (String × GTree)) (p : String) (g : GTree),
      wfL gs = true → (p, g) ∈ gs → wfT g = true ∧ g.isEmptyG = false := by
  intro gs
  induction gs with
  | nil => intro p g _ h; simp at h
  | cons e rest ih =>
    intro p g hw h
    obtain ⟨q, v⟩ := e
    rw [wfL_cons_parts] at hw
    rcases List.mem_cons.mp h with h1 | h2
    · injection h1 with hpq hgv
      subst hgv
      exact ⟨hw.1, hw.2.1⟩
    · exact ih p g hw.2.2 h2

lemma nodupB_append_one (l : List String) (b : String) (hb : b ∉ l)
    (h : nodupB l = true) : nodupB (l ++ [b]) = true := by
  induction l with
  | nil => simp [nodupB]
  | cons x rest ih =>
    rw [nodupB] at h
    have h1 := of_decide_eq_true (Bool.and_elim_left h)
    have h2 := Bool.and_elim_right h
    rw [List.cons_append, nodupB]
    refine Bool.and_intro ?_ (ih (fun hc => hb (List.mem_cons_of_mem _ hc)) h2)
    refine decide_eq_true ?_
    intro hc
    rcases List.mem_append.mp hc with hc1 | hc2
    · exact h1 hc1
    · rw [List.mem_singleton] at hc2
      subst hc2
      exact hb (List.mem_cons_self x rest)

lemma nodupB_insertD (ds : List String) (b : String) (h : nodupB ds = true) :
    nodupB (insertD b ds) = true := by
  by_cases hb : b ∈ ds
  · simp [insertD, hb, h]
  · simp only [insertD, if_neg hb]
    exact nodupB_append_one ds b hb h

lemma mem_removeD :
    ∀ (ds : List String) (b x : String), x ∈ removeD b ds → x ∈ ds := by
  intro ds
  induction ds with
  | nil => intro b x h; simp [removeD] at h
  | cons y rest ih =>
    intro b x h
    by_cases hy : y = b
    · rw [removeD, if_pos hy] at h
      exact List.mem_cons_of_mem _ h
    · rw [removeD, if_neg hy] at h
      rcases List.mem_cons.mp h with h1 | h2
      · simp [h1]
      · exact List.mem_cons_of_mem _ (ih b x h2)

lemma nodupB_removeD (ds : List String) (b : String) (h : nodupB ds = true) :
    nodupB (removeD b ds) = true := by
  induction ds with
  | nil => simp [removeD, nodupB]
  | cons x rest ih =>
    rw [nodupB] at h
    have h1 := of_decide_eq_true (Bool.and_elim_left h)
    have h2 := Bool.and_elim_right h
    by_cases hx : x = b
    · simpa [removeD, hx] using h2
    · rw [removeD, if_neg hx, nodupB]
      refine Bool.and_intro (decide_eq_true ?_) (ih h2)
      intro hc
      exact h1 (mem_removeD rest b x hc)


lemma wfL_setG :
    ∀ (gs : List (String × GTree)) (p : String) (g0 g' : GTree),
      wfL gs = true → lookupG gs p = some g0 → wfT g' = true → g'.isEmptyG = false →
      wfL (setG gs p g') = true := by
  intro gs
  induction gs with
  | nil => intro p g0 g' _ hl; simp [lookupG] at hl
  | cons e rest ih =>
    intro p g0 g' hw hl hw' hne
    obtain ⟨q, v⟩ := e
    rw [wfL_cons_parts] at hw
    by_cases hq : q = p
    · subst hq
      rw [setG_cons_self, wfL_cons_parts]
      exact ⟨hw', hne, hw.2.2⟩
    · simp only [lookupG, if_neg hq] at hl
      rw [setG_cons_ne _ _ _ _ _ hq, wfL_cons_parts]
      exact ⟨hw.1, hw.2.1, ih p g0 g' hw.2.2 hl hw' hne⟩

lemma wfL_removeG :
    ∀ (gs : List (String × GTree)) (p : String),
      wfL gs = true → wfL (removeG gs p) = true := by
  intro gs
  induction gs with
  | nil => intro p _; simp [removeG, wfL]
  | cons e rest ih =>
    intro p hw
    obtain ⟨q, v⟩ := e
    rw [wfL_cons_parts] at hw
    by_cases hq : q = p
    · subst hq; rw [removeG_cons_self]; exact hw.2.2
    · rw [removeG_cons_ne _ _ _ _ hq, wfL_cons_parts]
      exact ⟨hw.1, hw.2.1, ih p hw.2.2⟩

lemma nodupB_keysG_removeG :
    ∀ (gs : List (String × GTree)) (p : String),
      nodupB (keysG gs) = true → nodupB (keysG (removeG gs p)) = true := by
  intro gs
  induction gs with
  | nil => intro p h; simpa [removeG] using h
  | cons e rest ih =>
    intro p h
    obtain ⟨q, v⟩ := e
    have hkeys : keysG ((q, v) :: rest) = q :: keysG rest := rfl
    rw [hkeys, nodupB] at h
    have h1 := of_decide_eq_true (Bool.and_elim_left h)
    have h2 := Bool.and_elim_right h
    by_cases hq : q = p
    · subst hq; rw [removeG_cons_self]; exact h2
    · rw [removeG_cons_ne _ _ _ _ hq]
      have : keysG ((q, v) :: removeG rest p) = q :: keysG (removeG rest p) := rfl
      rw [this, nodupB]
      refine Bool.and_intro (decide_eq_true ?_) (ih p h2)
      intro hc
      exact h1 (keysG_removeG_subset rest p q hc)

lemma wfL_append_one (gs : List (String × GTree)) (p : String) (g : GTree)
    (hw : wfL gs = true) (hg : wfT g = true) (hne : g.isEmptyG = false) :
    wfL (gs ++ [(p, g)]) = true := by
  induction gs with
  | nil => simpa [wfL_cons_parts] using ⟨hg, hne, by simp [wfL]⟩
  | cons e rest ih =>
    obtain ⟨q, v⟩ := e
    rw [wfL_cons_parts] at hw
    rw [List.cons_append, wfL_cons_parts]
    exact ⟨hw.1, hw.2.1, ih hw.2.2⟩

lemma keysG_append_one (gs : List (String × GTree)) (p : String) (g : GTree) :
    keysG (gs ++ [(p, g)]) = keysG gs ++ [p] := by
  simp [keysG]

lemma regG_isEmptyG (segs : List String) (b : String) (t : GTree) :
    (regG segs b t).isEmptyG = false := by
  cases segs with
  | nil =>
    cases t with
    | node gs ds =>
      simp only [regG, GTree.isEmptyG]
      have hne : (insertD b ds).isEmpty = false := by
        by_cases hb : b ∈ ds
        · cases ds with
          | nil => simp at hb
          | cons x r => simp [insertD, hb]
        · simp [insertD, hb]
      simp [hne]
  | cons p ps =>
    cases t with
    | node gs ds =>
      simp only [regG]
      cases hl : lookupG gs p with
      | some g =>
        simp only [GTree.isEmptyG]
        cases gs with
        | nil => simp [lookupG] at hl
        | cons e rest =>
          obtain ⟨q, v⟩ := e
          by_cases hq : q = p
          · subst hq; rw [setG_cons_self]; simp
          · rw [setG_cons_ne _ _ _ _ _ hq]; simp
      | none => simp [GTree.isEmptyG]

lemma data_regG_cons (p : String) (ps : List String) (b : String) (t : GTree) :
    (regG (p :: ps) b t).data = t.data := by
  cases t with
  | node gs ds =>
    simp only [regG]
    cases lookupG gs p <;> simp [GTree.data]

lemma data_unregG_cons (p : String) (ps : List String) (b : String) (t : GTree) :
    (unregG (p :: ps) b t).data = t.data := by
  cases t with
  | node gs ds =>
    simp only [unregG]
    cases lookupG gs p with
    | none => simp [GTree.data]
    | some g =>
      by_cases he : (unregG ps b g).isEmptyG <;> simp [he, GTree.data]

lemma paths_regG_nil_tree :
    ∀ (segs : List String) (b : String),
      GTree.paths (regG segs b (GTree.node [] [])) = [segs ++ [b]] := by
  intro segs
  induction segs with
  | nil => intro b; simp [regG, insertD, GTree.paths, pathsL]
  | cons p ps ih =>
    intro b
    simp only [regG, lookupG]
    rw [GTree.paths]
    simp [pathsL_cons, pathsL, ih b]

lemma paths_node (gs : List (String × GTree)) (ds : List String) :
    GTree.paths (.node gs ds) = ds.map (fun b => [b]) ++ pathsL gs := rfl

lemma mem_paths_ne_nil (t : GTree) (q : List String) (h : q ∈ GTree.paths t) :
    q ≠ [] := by
  cases t with
  | node gs ds =>
    rw [paths_node] at h
    rcases List.mem_append.mp h with h1 | h2
    · obtain ⟨b, -, hb⟩ := List.mem_map.mp h1
      exact hb ▸ List.cons_ne_nil _ _
    · exact mem_pathsL_ne_nil gs q h2

lemma paths_of_isEmptyG (g : GTree) (h : g.isEmptyG = true) : GTree.paths g = [] := by
  cases g with
  | node gs ds =>
    simp [GTree.isEmptyG, Bool.and_eq_true, List.isEmpty_iff] at h
    simp [paths_node, h.1, h.2, pathsL]

lemma wfT_empty_node : wfT (GTree.node [] []) = true := by
  simp [wfT, nodupB, keysG, wfL]

set_option maxHeartbeats 1000000 in
lemma mem_paths_regG :
    ∀ (segs : List String) (t : GTree) (b : String) (q : List String),
      wfT t = true →
      (q ∈ GTree.paths (regG segs b t) ↔ q ∈ GTree.paths t ∨ q = segs ++ [b]) := by
  intro segs
  induction segs with
  | nil =>
    intro t b q hw
    cases t with
    | node gs ds =>
      simp only [regG, paths_node, List.nil_append]
      by_cases hb : b ∈ ds
      · rw [show insertD b ds = ds from by simp [insertD, hb]]
        constructor
        · exact Or.inl
        · rintro (h | rfl)
          · exact h
          · exact List.mem_append.mpr (Or.inl (List.mem_map.mpr ⟨b, hb, rfl⟩))
      · rw [show insertD b ds = ds ++ [b] from by simp [insertD, hb]]
        simp only [List.map_append, List.map_cons, List.map_nil, List.mem_append,
          List.mem_singleton]
        tauto
  | cons p ps ih =>
    intro t b q hw
    cases t with
    | node gs ds =>
      obtain ⟨hd, hk, hl⟩ := (wfT_parts gs ds).mp hw
      simp only [regG]
      cases hlook : lookupG gs p with
      | none =>
        rw [paths_node, paths_node, pathsL_append_one, paths_regG_nil_tree]
        simp only [List.map_cons, List.map_nil, List.mem_append, List.mem_singleton,
          List.cons_append]
        tauto
      | some g =>
        have hchild := wfL_mem gs p g hl (lookupG_mem gs p g hlook)
        rw [paths_node, paths_node]
        constructor
        · intro h
          rcases List.mem_append.mp h with h1 | h2
          · exact Or.inl (List.mem_append.mpr (Or.inl h1))
          · cases q with
            | nil => exact absurd rfl (mem_pathsL_ne_nil _ _ h2)
            | cons x r =>
              rw [mem_pathsL_setG gs p g (regG ps b g) x r hk hlook] at h2
              by_cases hx : x = p
              · rw [if_pos hx] at h2
                subst hx
                rcases (ih g b r hchild.1).mp h2 with hr | hr
                · exact Or.inl (List.mem_append.mpr (Or.inr
                    ((mem_pathsL_cons_iff gs x g r hk hlook).mpr hr)))
                · subst hr
                  exact Or.inr (by simp)
              · rw [if_neg hx] at h2
                exact Or.inl (List.mem_append.mpr (Or.inr h2))
        · intro h
          rcases h with h | rfl
          · rcases List.mem_append.mp h with h1 | h2
            · exact List.mem_append.mpr (Or.inl h1)
            · cases q with
              | nil => exact absurd rfl (mem_pathsL_ne_nil _ _ h2)
              | cons x r =>
                refine List.mem_append.mpr (Or.inr ?_)
                rw [mem_pathsL_setG gs p g (regG ps b g) x r hk hlook]
                by_cases hx : x = p
                · rw [if_pos hx]
                  subst hx
                  exact (ih g b r hchild.1).mpr
                    (Or.inl ((mem_pathsL_cons_iff gs x g r hk hlook).mp h2))
                · rw [if_neg hx]
                  exact h2
          · refine List.mem_append.mpr (Or.inr ?_)
            rw [show (p :: ps) ++ [b] = p :: (ps ++ [b]) from rfl,
              mem_pathsL_setG gs p g (regG ps b g) p (ps ++ [b]) hk hlook, if_pos rfl]
            exact (ih g b (ps ++ [b]) hchild.1).mpr (Or.inr rfl)

lemma wfT_regG :
    ∀ (segs : List String) (t : GTree) (b : String),
      wfT t = true → wfT (regG segs b t) = true := by
  intro segs
  induction segs with
  | nil =>
    intro t b hw
    cases t with
    | node gs ds =>
      obtain ⟨hd, hk, hl⟩ := (wfT_parts gs ds).mp hw
      exact (wfT_parts _ _).mpr ⟨nodupB_insertD ds b hd, hk, hl⟩
  | cons p ps ih =>
    intro t b hw
    cases t with
    | node gs ds =>
      obtain ⟨hd, hk, hl⟩ := (wfT_parts gs ds).mp hw
      simp only [regG]
      cases hlook : lookupG gs p with
      | none =>
        refine (wfT_parts _ _).mpr ⟨hd, ?_, ?_⟩
        · rw [keysG_append_one]
          exact nodupB_append_one _ p ((lookupG_eq_none_iff gs p).mp hlook) hk
        · exact wfL_append_one gs p _ hl (ih _ b wfT_empty_node) (regG_isEmptyG ps b _)
      | some g =>
        have hchild := wfL_mem gs p g hl (lookupG_mem gs p g hlook)
        refine (wfT_parts _ _).mpr ⟨hd, ?_, ?_⟩
        · rw [keysG_setG]
          exact hk
        · exact wfL_setG gs p g _ hl hlook (ih g b hchild.1) (regG_isEmptyG ps b g)

lemma mem_removeD_iff (ds : List String) (b x : String) (hd : nodupB ds = true) :
    x ∈ removeD b ds ↔ x ∈ ds ∧ x ≠ b := by
  induction ds with
  | nil => simp [removeD]
  | cons y rest ih =>
    rw [nodupB] at hd
    have h1 := of_decide_eq_true (Bool.and_elim_left hd)
    have h2 := Bool.and_elim_right hd
    by_cases hy : y = b
    · subst hy
      rw [removeD, if_pos rfl]
      constructor
      · intro h
        exact ⟨List.mem_cons_of_mem _ h, fun hc => h1 (hc ▸ h)⟩
      · rintro ⟨h, hne⟩
        rcases List.mem_cons.mp h with h3 | h4
        · exact absurd h3 hne
        · exact h4
    · rw [removeD, if_neg hy]
      constructor
      · intro h
        rcases List.mem_cons.mp h with h3 | h4
        · subst h3
          exact ⟨List.mem_cons_self _ _, fun hc => hy hc⟩
        · exact ⟨List.mem_cons_of_mem _ ((ih h2).mp h4).1, ((ih h2).mp h4).2⟩
      · rintro ⟨h, hne⟩
        rcases List.mem_cons.mp h with h3 | h4
        · exact h3 ▸ List.mem_cons_self _ _
        · exact List.mem_cons_of_mem _ ((ih h2).mpr ⟨h4, hne⟩)

lemma mem_pathsL_tail_ne_nil :
    ∀ (gs : List (String × GTree)) (x : String) (r : List String),
      (x :: r) ∈ pathsL gs → r ≠ [] := by
  intro gs
  induction gs with
  | nil => intro x r h; simp [pathsL] at h
  | cons e rest ih =>
    intro x r h
    obtain ⟨p, g⟩ := e
    rw [pathsL_cons] at h
    rcases List.mem_append.mp h with h1 | h2
    · obtain ⟨q', hq', he⟩ := List.mem_map.mp h1
      obtain ⟨-, rfl⟩ := List.cons_eq_cons.mp he
      exact mem_paths_ne_nil g q' hq'
    · exact ih x r h2

set_option maxHeartbeats 1000000 in
lemma mem_paths_unregG :
    ∀ (segs : List String) (t : GTree) (b : String) (q : List String),
      wfT t = true →
      (q ∈ GTree.paths (unregG segs b t) ↔
        q ∈ GTree.paths t ∧ q ≠ segs ++ [b]) := by
  intro segs
  induction segs with
  | nil =>
    intro t b q hw
    cases t with
    | node gs ds =>
      obtain ⟨hd, hk, hl⟩ := (wfT_parts gs ds).mp hw
      simp only [unregG, paths_node, List.nil_append, List.mem_append]
      constructor
      · intro h
        rcases h with h1 | h2
        · obtain ⟨y, hy, he⟩ := List.mem_map.mp h1
          have hy' := (mem_removeD_iff ds b y hd).mp hy
          subst he
          exact ⟨Or.inl (List.mem_map.mpr ⟨y, hy'.1, rfl⟩), by simp [hy'.2]⟩
        · refine ⟨Or.inr h2, ?_⟩
          intro hc
          have := mem_pathsL_tail_ne_nil gs b [] (by simpa using hc ▸ h2)
          exact this rfl
      · rintro ⟨h1 | h2, hne⟩
        · obtain ⟨y, hy, he⟩ := List.mem_map.mp h1
          subst he
          refine Or.inl (List.mem_map.mpr ⟨y, ?_, rfl⟩)
          exact (mem_removeD_iff ds b y hd).mpr ⟨hy, fun hc => hne (by simp [hc])⟩
        · exact Or.inr h2
  | cons p ps ih =>
    intro t b q hw
    cases t with
    | node gs ds =>
      obtain ⟨hd, hk, hl⟩ := (wfT_parts gs ds).mp hw
      cases hlook : lookupG gs p with
      | none =>
        rw [show unregG (p :: ps) b (GTree.node gs ds) = GTree.node gs ds from by
          simp [unregG, hlook]]
        rw [paths_node]
        constructor
        · intro h
          refine ⟨h, ?_⟩
          rintro rfl
          rcases List.mem_append.mp h with h1 | h2
          · obtain ⟨y, -, he⟩ := List.mem_map.mp h1
            simp at he
          · exact (lookupG_eq_none_iff gs p).mp hlook
              (mem_pathsL_head gs p _ (by simpa using h2))
        · exact And.left
      | some g =>
        have hchild := wfL_mem gs p g hl (lookupG_mem gs p g hlook)
        have hun : unregG (p :: ps) b (GTree.node gs ds)
            = if (unregG ps b g).isEmptyG then GTree.node (removeG gs p) ds
              else GTree.node (setG gs p (unregG ps b g)) ds := by
          simp [unregG, hlook]
        by_cases hemp : (unregG ps b g).isEmptyG
        · rw [hun, if_pos hemp, paths_node, paths_node]
          constructor
          · intro h
            rcases List.mem_append.mp h with h1 | h2
            · obtain ⟨y, hy, he⟩ := List.mem_map.mp h1
              subst he
              exact ⟨List.mem_append.mpr (Or.inl (List.mem_map.mpr ⟨y, hy, rfl⟩)),
                by simp⟩
            · cases q with
              | nil => exact absurd rfl (mem_pathsL_ne_nil _ _ h2)
              | cons x r =>
                have h3 := (mem_pathsL_removeG gs p x r hk).mp h2
                refine ⟨List.mem_append.mpr (Or.inr h3.2), ?_⟩
                intro hc
                exact h3.1 (List.cons_eq_cons.mp hc).1
          · rintro ⟨h, hne⟩
            rcases List.mem_append.mp h with h1 | h2
            · exact List.mem_append.mpr (Or.inl h1)
            · cases q with
              | nil => exact absurd rfl (mem_pathsL_ne_nil _ _ h2)
              | cons x r =>
                refine List.mem_append.mpr (Or.inr ?_)
                rw [mem_pathsL_removeG gs p x r hk]
                refine ⟨?_, h2⟩
                intro hx
                subst hx
                have hr := (mem_pathsL_cons_iff gs x g r hk hlook).mp h2
                have hr' := (ih g b r hchild.1)
                have hempty := paths_of_isEmptyG _ hemp
                have : r ∈ GTree.paths (unregG ps b g) ∨ r = ps ++ [b] := by
                  by_cases hrb : r = ps ++ [b]
                  · exact Or.inr hrb
                  · exact Or.inl (hr'.mpr ⟨hr, hrb⟩)
                rcases this with h4 | h4
                · rw [hempty] at h4
                  simp at h4
                · exact hne (by simp [h4])
        · rw [hun, if_neg hemp, paths_node, paths_node]
          constructor
          · intro h
            rcases List.mem_append.mp h with h1 | h2
            · obtain ⟨y, hy, he⟩ := List.mem_map.mp h1
              subst he
              exact ⟨List.mem_append.mpr (Or.inl (List.mem_map.mpr ⟨y, hy, rfl⟩)),
                by simp⟩
            · cases q with
              | nil => exact absurd rfl (mem_pathsL_ne_nil _ _ h2)
              | cons x r =>
                rw [mem_pathsL_setG gs p g (unregG ps b g) x r hk hlook] at h2
                by_cases hx : x = p
                · rw [if_pos hx] at h2
                  subst hx
                  have hr := (ih g b r hchild.1).mp h2
                  refine ⟨List.mem_append.mpr (Or.inr
                    ((mem_pathsL_cons_iff gs x g r hk hlook).mpr hr.1)), ?_⟩
                  intro hc
                  exact hr.2 (List.cons_eq_cons.mp hc).2
                · rw [if_neg hx] at h2
                  refine ⟨List.mem_append.mpr (Or.inr h2), ?_⟩
                  intro hc
                  exact hx (List.cons_eq_cons.mp hc).1
          · rintro ⟨h, hne⟩
            rcases List.mem_append.mp h with h1 | h2
            · exact List.mem_append.mpr (Or.inl h1)
            · cases q with
              | nil => exact absurd rfl (mem_pathsL_ne_nil _ _ h2)
              | cons x r =>
                refine List.mem_append.mpr (Or.inr ?_)
                rw [mem_pathsL_setG gs p g (unregG ps b g) x r hk hlook]
                by_cases hx : x = p
                · rw [if_pos hx]
                  subst hx
                  refine (ih g b r hchild.1).mpr
                    ⟨(mem_pathsL_cons_iff gs x g r hk hlook).mp h2, ?_⟩
                  intro hc
                  exact hne (by simp [hc])
                · rw [if_neg hx]
                  exact h2

lemma wfT_unregG :
    ∀ (segs : List String) (t : GTree) (b : String),
      wfT t = true → wfT (unregG segs b t) = true := by
  intro segs
  induction segs with
  | nil =>
    intro t b hw
    cases t with
    | node gs ds =>
      obtain ⟨hd, hk, hl⟩ := (wfT_parts gs ds).mp hw
      exact (wfT_parts _ _).mpr ⟨nodupB_removeD ds b hd, hk, hl⟩
  | cons p ps ih =>
    intro t b hw
    cases t with
    | node gs ds =>
      obtain ⟨hd, hk, hl⟩ := (wfT_parts gs ds).mp hw
      cases hlook : lookupG gs p with
      | none =>
        rw [show unregG (p :: ps) b (GTree.node gs ds) = GTree.node gs ds from by
          simp [unregG, hlook]]
        exact hw
      | some g =>
        have hchild := wfL_mem gs p g hl (lookupG_mem gs p g hlook)
        have hun : unregG (p :: ps) b (GTree.node gs ds)
            = if (unregG ps b g).isEmptyG then GTree.node (removeG gs p) ds
              else GTree.node (setG gs p (unregG ps b g)) ds := by
          simp [unregG, hlook]
        by_cases hemp : (unregG ps b g).isEmptyG
        · rw [hun, if_pos hemp]
          exact (wfT_parts _ _).mpr
            ⟨hd, nodupB_keysG_removeG gs p hk, wfL_removeG gs p hl⟩
        · rw [hun, if_neg hemp]
          refine (wfT_parts _ _).mpr ⟨hd, by rw [keysG_setG]; exact hk, ?_⟩
          exact wfL_setG gs p g _ hl hlook (ih g b hchild.1)
            (Bool.not_eq_true _ ▸ eq_false_of_ne_true hemp)

lemma mem_insertU (q x : List String) (l : List (List String)) :
    x ∈ insertU q l ↔ x ∈ l ∨ x = q := by
  by_cases hq : q ∈ l
  · simp only [insertU, if_pos hq]
    constructor
    · exact Or.inl
    · rintro (h | rfl)
      · exact h
      · exact hq
  · simp [insertU, if_neg hq, List.mem_append]

lemma nodup_insertU (q : List String) (l : List (List String)) (h : l.Nodup) :
    (insertU q l).Nodup := by
  by_cases hq : q ∈ l
  · simpa [insertU, if_pos hq] using h
  · simp only [insertU, if_neg hq]
    simp [List.nodup_append, h, hq]

lemma mem_removeU :
    ∀ (l : List (List String)) (q x : List String), l.Nodup →
      (x ∈ removeU q l ↔ x ∈ l ∧ x ≠ q) := by
  intro l
  induction l with
  | nil => intro q x _; simp [removeU]
  | cons y rest ih =>
    intro q x h
    rw [List.nodup_cons] at h
    by_cases hy : y = q
    · subst hy
      rw [removeU, if_pos rfl]
      constructor
      · intro hm
        exact ⟨List.mem_cons_of_mem _ hm, fun hc => h.1 (hc ▸ hm)⟩
      · rintro ⟨hm, hne⟩
        rcases List.mem_cons.mp hm with h1 | h2
        · exact absurd h1 hne
        · exact h2
    · rw [removeU, if_neg hy]
      constructor
      · intro hm
        rcases List.mem_cons.mp hm with h1 | h2
        · subst h1
          exact ⟨List.mem_cons_self _ _, fun hc => hy hc⟩
        · exact ⟨List.mem_cons_of_mem _ ((ih q x h.2).mp h2).1, ((ih q x h.2).mp h2).2⟩
      · rintro ⟨hm, hne⟩
        rcases List.mem_cons.mp hm with h1 | h2
        · exact h1 ▸ List.mem_cons_self _ _
        · exact List.mem_cons_of_mem _ ((ih q x h.2).mpr ⟨h2, hne⟩)

lemma mem_of_mem_removeU :
    ∀ (l : List (List String)) (q x : List String), x ∈ removeU q l → x ∈ l := by
  intro l
  induction l with
  | nil => intro q x h; simpa [removeU] using h
  | cons y rest ih =>
    intro q x h
    by_cases hy : y = q
    · rw [removeU, if_pos hy] at h
      exact List.mem_cons_of_mem _ h
    · rw [removeU, if_neg hy] at h
      rcases List.mem_cons.mp h with h1 | h2
      · exact h1 ▸ List.mem_cons_self _ _
      · exact List.mem_cons_of_mem _ (ih q x h2)

lemma nodup_removeU :
    ∀ (l : List (List String)) (q : List String), l.Nodup → (removeU q l).Nodup := by
  intro l
  induction l with
  | nil => intro q _; simp [removeU]
  | cons y rest ih =>
    intro q h
    rw [List.nodup_cons] at h
    by_cases hy : y = q
    · rw [removeU, if_pos hy]; exact h.2
    · rw [removeU, if_neg hy, List.nodup_cons]
      exact ⟨fun hc => h.1 (mem_of_mem_removeU rest q y hc), ih q h.2⟩

lemma hinv_empty : hinv emptyHStore := by
  refine ⟨rfl, by simp [emptyHStore, wfT, nodupB, keysG, wfL], List.nodup_nil, ?_⟩
  intro q
  simp [emptyHStore, GTree.paths, pathsL]

lemma hinv_reg (s : HStore) (segs : List String) (h : hinv s)
    (hlen : 2 ≤ segs.length) : hinv (data_register_hierarchy s segs) := by
  obtain ⟨hd0, hwf, hnd, hcorr⟩ := h
  rcases List.eq_nil_or_concat segs with rfl | ⟨l, b, rfl⟩
  · simp at hlen
  · rw [List.concat_eq_append] at hlen ⊢
    cases l with
    | nil => simp at hlen
    | cons p ps =>
      have hd : ((p :: ps) ++ [b]).dropLast = p :: ps := List.dropLast_concat
      have hg : ((p :: ps) ++ [b]).getLastD "" = b := List.getLastD_concat _ _ _
      have hreg : data_register_hierarchy s ((p :: ps) ++ [b]) =
          { flat := insertU ((p :: ps) ++ [b]) s.flat,
            root := regG (p :: ps) b s.root } := by
        simp only [data_register_hierarchy]
        rw [hd, hg]
      rw [hreg]
      refine ⟨?_, wfT_regG (p :: ps) s.root b hwf, nodup_insertU _ _ hnd, ?_⟩
      · show (regG (p :: ps) b s.root).data = []
        rw [data_regG_cons]; exact hd0
      · intro q
        show q ∈ insertU ((p :: ps) ++ [b]) s.flat ↔
          q ∈ GTree.paths (regG (p :: ps) b s.root)
        rw [mem_insertU ((p :: ps) ++ [b]) q s.flat,
            mem_paths_regG (p :: ps) s.root b q hwf, hcorr q]

lemma hinv_del (s : HStore) (segs : List String) (h : hinv s) :
    hinv (del_data s segs) := by
  obtain ⟨hd0, hwf, hnd, hcorr⟩ := h
  rcases List.eq_nil_or_concat segs with rfl | ⟨l, b, rfl⟩
  · refine ⟨hd0, hwf, nodup_removeU _ _ hnd, ?_⟩
    intro q
    show q ∈ removeU [] s.flat ↔ q ∈ GTree.paths s.root
    rw [mem_removeU s.flat [] q hnd]
    constructor
    · rintro ⟨hm, _⟩; exact (hcorr q).mp hm
    · intro hm
      exact ⟨(hcorr q).mpr hm, mem_paths_ne_nil s.root q hm⟩
  · rw [List.concat_eq_append]
    cases l with
    | nil =>
      refine ⟨hd0, hwf, nodup_removeU _ _ hnd, ?_⟩
      intro q
      show q ∈ removeU ([] ++ [b]) s.flat ↔ q ∈ GTree.paths s.root
      rw [mem_removeU s.flat ([] ++ [b]) q hnd]
      constructor
      · rintro ⟨hm, _⟩; exact (hcorr q).mp hm
      · intro hm
        refine ⟨(hcorr q).mpr hm, ?_⟩
        intro hq
        rcases hr : s.root with ⟨gs, ds⟩
        rw [hr] at hm hd0
        subst hd0
        rw [paths_node] at hm
        simp only [List.map_nil, List.nil_append] at hm
        rw [hq] at hm
        simp only [List.nil_append] at hm
        exact mem_pathsL_tail_ne_nil gs b [] hm rfl
    | cons p ps =>
      have hd : ((p :: ps) ++ [b]).dropLast = p :: ps := List.dropLast_concat
      have hg : ((p :: ps) ++ [b]).getLastD "" = b := List.getLastD_concat _ _ _
      have hdel : del_data s ((p :: ps) ++ [b]) =
          { flat := removeU ((p :: ps) ++ [b]) s.flat,
            root := unregG (p :: ps) b s.root } := by
        simp only [del_data]
        rw [hd, hg]
      rw [hdel]
      refine ⟨?_, wfT_unregG (p :: ps) s.root b hwf, nodup_removeU _ _ hnd, ?_⟩
      · show (unregG (p :: ps) b s.root).data = []
        rw [data_unregG_cons]; exact hd0
      · intro q
        show q ∈ removeU ((p :: ps) ++ [b]) s.flat ↔
          q ∈ GTree.paths (unregG (p :: ps) b s.root)
        rw [mem_removeU s.flat ((p :: ps) ++ [b]) q hnd,
            mem_paths_unregG (p :: ps) s.root b q hwf, hcorr q]

lemma hinv_foldl :
    ∀ (ops : List HOp) (s : HStore), hinv s →
      (∀ segs, HOp.reg segs ∈ ops → 2 ≤ segs.length) →
      hinv (ops.foldl applyHOp s) := by
  intro ops
  induction ops with
  | nil => intro s hs _; simpa using hs
  | cons op rest ih =>
    intro s hs hreg
    rw [List.foldl_cons]
    apply ih
    · cases op with
      | reg segs => exact hinv_reg s segs hs (hreg segs (List.mem_cons_self _ _))
      | del segs => exact hinv_del s segs hs
    · intro segs hm
      exact hreg segs (List.mem_cons_of_mem _ hm)

lemma wf_groupAt :
    ∀ (ps : List String) (t : GTree) (p : String) (g : GTree),
      wfT t = true → groupAt t (p :: ps) = some g →
      g.isEmptyG = false ∧ wfT g = true := by
  intro ps
  induction ps with
  | nil =>
    intro t p g hwf hga
    rcases t with ⟨gs, ds⟩
    cases hl : lookupG gs p with
    | none => simp [groupAt, GTree.groups, hl] at hga
    | some g2 =>
      simp only [groupAt, GTree.groups, hl] at hga
      rw [Option.some_inj] at hga
      subst hga
      have hwl := ((wfT_parts gs ds).mp hwf).2.2
      have h2 := wfL_mem gs p g2 hwl (lookupG_mem gs p g2 hl)
      exact ⟨h2.2, h2.1⟩
  | cons p2 ps2 ih =>
    intro t p g hwf hga
    rcases t with ⟨gs, ds⟩
    cases hl : lookupG gs p with
    | none => simp [groupAt, GTree.groups, hl] at hga
    | some g2 =>
      simp only [groupAt, GTree.groups, hl] at hga
      have hwl := ((wfT_parts gs ds).mp hwf).2.2
      have h2 := wfL_mem gs p g2 hwl (lookupG_mem gs p g2 hl)
      exact ih g2 p2 g h2.1 hga

/-- C4 counterexample: registering a unit under a single-segment path (no
slash in the full name) inserts it into the flat map, but
`_data_register_hierarchy` leaves `curgroup` at `NULL` and returns before
attaching anything to the group tree, so the flat map and the tree walk do
not correspond. -/
theorem hierarchy_flat_tree_mismatch_single_segment :
    ["x"] ∈ (runHOps [HOp.reg ["x"]]).flat ∧
    ["x"] ∉ GTree.paths (runHOps [HOp.reg ["x"]]).root := by
  constructor
  · simp [runHOps, applyHOp, data_register_hierarchy, insertU, emptyHStore]
  · simp [runHOps, applyHOp, data_register_hierarchy, insertU, emptyHStore,
      GTree.paths, pathsL]

/-- C4 (amended): after every sequence of registrations and removals in
which each registered full path has at least two segments (i.e. contains a
slash, so `_data_register_hierarchy` actually walks the tree), the flat map
and the group tree correspond exactly: a path is in the flat map iff it is
reachable by walking the tree, the flat map is duplicate free, and no group
reachable from the root is empty. -/
theorem hierarchy_invariant_registered_paths (ops : List HOp)
    (hreg : ∀ segs, HOp.reg segs ∈ ops → 2 ≤ segs.length) :
    (∀ q, q ∈ (runHOps ops).flat ↔ q ∈ GTree.paths (runHOps ops).root) ∧
    (runHOps ops).flat.Nodup ∧
    (∀ (p : String) (ps : List String) (g : GTree),
      groupAt (runHOps ops).root (p :: ps) = some g → g.isEmptyG = false) := by
  have h : hinv (runHOps ops) := hinv_foldl ops emptyHStore hinv_empty hreg
  exact ⟨fun q => h.2.2.2 q, h.2.2.1,
    fun p ps g hga => (wf_groupAt ps (runHOps ops).root p g h.2.1 hga).1⟩

/-- Witness for the amended C4 theorem at the concrete operation sequence
that registers the two-segment path `a/x`. -/
theorem hierarchy_invariant_registered_paths_witness :
    (["a", "x"] ∈ (runHOps [HOp.reg ["a", "x"]]).flat ↔
      ["a", "x"] ∈ GTree.paths (runHOps [HOp.reg ["a", "x"]]).root) ∧
    (runHOps [HOp.reg ["a", "x"]]).flat.Nodup := by
  have h := hierarchy_invariant_registered_paths [HOp.reg ["a", "x"]]
    (by
      intro segs hm
      have h2 := List.mem_singleton.mp hm
      injection h2 with h3
      subst h3
      decide)
  exact ⟨h.1 ["a", "x"], h.2.1⟩

lemma foldl_begin_le_init :
    ∀ (l : List TUnit) (init : ℕ),
      l.foldl (fun acc u => if u.epoch_datastart < acc then u.epoch_datastart else acc)
        init ≤ init := by
  intro l
  induction l with
  | nil => intro init; exact le_refl _
  | cons u rest ih =>
    intro init
    rw [List.foldl_cons]
    refine le_trans (ih _) ?_
    by_cases h : u.epoch_datastart < init
    · rw [if_pos h]; omega
    · rw [if_neg h]

lemma foldl_begin_le_mem :
    ∀ (l : List TUnit) (init : ℕ) (u : TUnit), u ∈ l →
      l.foldl (fun acc v => if v.epoch_datastart < acc then v.epoch_datastart else acc)
        init ≤ u.epoch_datastart := by
  intro l
  induction l with
  | nil => intro init u h; exact absurd h (List.not_mem_nil u)
  | cons y rest ih =>
    intro init u h
    rw [List.foldl_cons]
    rcases List.mem_cons.mp h with rfl | h2
    · refine le_trans (foldl_begin_le_init rest _) ?_
      by_cases hy : u.epoch_datastart < init
      · rw [if_pos hy]
      · rw [if_neg hy]; omega
    · exact ih _ u h2

lemma init_le_foldl_end :
    ∀ (l : List TUnit) (init : ℕ),
      init ≤ l.foldl (fun acc u => if u.epoch_dataend > acc then u.epoch_dataend else acc)
        init := by
  intro l
  induction l with
  | nil => intro init; exact le_refl _
  | cons u rest ih =>
    intro init
    rw [List.foldl_cons]
    refine le_trans ?_ (ih _)
    by_cases h : u.epoch_dataend > init
    · rw [if_pos h]; omega
    · rw [if_neg h]

lemma mem_le_foldl_end :
    ∀ (l : List TUnit) (init : ℕ) (u : TUnit), u ∈ l →
      u.epoch_dataend ≤
        l.foldl (fun acc v => if v.epoch_dataend > acc then v.epoch_dataend else acc)
          init := by
  intro l
  induction l with
  | nil => intro init u h; exact absurd h (List.not_mem_nil u)
  | cons y rest ih =>
    intro init u h
    rw [List.foldl_cons]
    rcases List.mem_cons.mp h with rfl | h2
    · refine le_trans ?_ (init_le_foldl_end rest _)
      by_cases hy : u.epoch_dataend > init
      · rw [if_pos hy]
      · rw [if_neg hy]; omega
    · exact ih _ u h2

lemma foldl_end_mono_init :
    ∀ (l : List TUnit) (a b : ℕ), a ≤ b →
      l.foldl (fun acc u => if u.epoch_dataend > acc then u.epoch_dataend else acc) a ≤
      l.foldl (fun acc u => if u.epoch_dataend > acc then u.epoch_dataend else acc) b := by
  intro l
  induction l with
  | nil => intro a b h; exact h
  | cons u rest ih =>
    intro a b h
    rw [List.foldl_cons, List.foldl_cons]
    refine ih _ _ ?_
    by_cases h1 : u.epoch_dataend > a <;> by_cases h2 : u.epoch_dataend > b <;>
      simp [h1, h2] <;> omega

lemma foldl_begin_addSample :
    ∀ (l : List TUnit) (i t init : ℕ),
      (addSample l i t).foldl
        (fun acc v => if v.epoch_datastart < acc then v.epoch_datastart else acc) init =
      l.foldl (fun acc v => if v.epoch_datastart < acc then v.epoch_datastart else acc)
        init := by
  intro l
  induction l with
  | nil => intro i t init; rfl
  | cons u rest ih =>
    intro i t init
    cases i with
    | zero => rfl
    | succ j =>
      simp only [addSample, List.foldl_cons]
      exact ih j t _

lemma foldl_end_addSample :
    ∀ (l : List TUnit) (i t init : ℕ),
      l.foldl (fun acc v => if v.epoch_dataend > acc then v.epoch_dataend else acc)
        init ≤
      (addSample l i t).foldl
        (fun acc v => if v.epoch_dataend > acc then v.epoch_dataend else acc) init := by
  intro l
  induction l with
  | nil => intro i t init; exact le_refl _
  | cons u rest ih =>
    intro i t init
    cases i with
    | zero =>
      simp only [addSample, List.foldl_cons]
      have hde : u.epoch_dataend ≤
          TUnit.epoch_dataend { u with rel_usec := u.rel_usec ++ [t] } := by
        show u.epoch_datastart + u.rel_usec.foldl max 0 ≤
          u.epoch_datastart + (u.rel_usec ++ [t]).foldl max 0
        rw [List.foldl_append, List.foldl_cons, List.foldl_nil]
        exact Nat.add_le_add_left (le_max_left _ _) _
      refine foldl_end_mono_init rest _ _ ?_
      by_cases h1 : u.epoch_dataend > init <;>
        by_cases h2 : TUnit.epoch_dataend { u with rel_usec := u.rel_usec ++ [t] } > init <;>
        simp [h1, h2] <;> omega
    | succ j =>
      simp only [addSample, List.foldl_cons]
      exact ih j t _

/-- C9 counterexample: on a system that owns no data units both aggregation
loops fall through, leaving the begin marker at its `ULONG_MAX` initial and
the end marker at its `0` initial, so the claimed `begin ≤ end` fails. -/
theorem active_time_span_empty_system :
    get_time_active_begin_usec [] = ULONG_MAX ∧
    get_time_active_end_usec [] = 0 ∧
    ¬ get_time_active_begin_usec [] ≤ get_time_active_end_usec [] := by
  refine ⟨rfl, rfl, ?_⟩
  decide

/-- C9 (amended): on a system owning at least one data unit the active-time
span is well ordered (`get_time_active_begin_usec ≤ get_time_active_end_usec`),
and appending one more in-range sample to any unit leaves the begin marker
unchanged and can only move the end marker later, so both bounds are
non-decreasing as samples are added. -/
theorem active_time_span_bounds (units : List TUnit) (h : units ≠ []) (i t : ℕ) :
    get_time_active_begin_usec units ≤ get_time_active_end_usec units ∧
    get_time_active_begin_usec (addSample units i t) = get_time_active_begin_usec units ∧
    get_time_active_end_usec units ≤ get_time_active_end_usec (addSample units i t) := by
  refine ⟨?_, foldl_begin_addSample units i t ULONG_MAX, foldl_end_addSample units i t 0⟩
  cases units with
  | nil => exact absurd rfl h
  | cons u rest =>
    have h1 : get_time_active_begin_usec (u :: rest) ≤ u.epoch_datastart :=
      foldl_begin_le_mem (u :: rest) ULONG_MAX u (List.mem_cons_self _ _)
    have h2 : u.epoch_dataend ≤ get_time_active_end_usec (u :: rest) :=
      mem_le_foldl_end (u :: rest) 0 u (List.mem_cons_self _ _)
    have h3 : u.epoch_datastart ≤ u.epoch_dataend := Nat.le_add_right _ _
    omega

/-- Witness for the amended C9 theorem on the one-unit system `c9Units`. -/
theorem active_time_span_bounds_witness :
    c9Units ≠ [] ∧
    (get_time_active_begin_usec c9Units ≤ get_time_active_end_usec c9Units ∧
     get_time_active_begin_usec (addSample c9Units 0 7) = get_time_active_begin_usec c9Units ∧
     get_time_active_end_usec c9Units ≤ get_time_active_end_usec (addSample c9Units 0 7)) :=
  ⟨by decide, active_time_span_bounds c9Units (by decide) 0 7⟩
